import Mathlib

/-!
# distributed-signup: a verification development

A shallow embedding of the Go repository `marselester/distributed-signup`:

* package `account` (errors and the request, response and user records),
* package `pg` (`UserService.CreateUser`, `UserService.ByUsername` over the `account` table),
* package `kafka` (`SignupService.CreateRequest`, `Requests`, `CreateResponse`, `Responses`,
  `mergeMessages`),
* `cmd/signup-server` (the request handler passed to `Requests`),
* `cmd/signup-ctl` (the loop of `main`, `userInput`, `printResponses`).

The strings of the records are Lean strings, that is Unicode text: this is what `json.Unmarshal`
hands to the server and what the table holds.  A Go string as such is a sequence of bytes, which
need not be well-formed UTF-8; it is embedded as a list of natural numbers below 256, `utf8` gives
the bytes of a text, and the payload of a message is such a sequence of bytes.
Collaborators that live outside the repository are embedded by their interface: the Postgres
table is a list of rows guarded by the constraints of `pg.UserSchema`, a Kafka topic is the list
of acknowledged messages, `encoding/json` is a byte-level encoder of Go strings and a byte-level
decoder of JSON texts into the two records, and every failure the outside world can inject (a
lost connection, a failed random source, a refused append) is an explicit input of the operation
it hits.  A call of `log.Fatalf`
ends the run with the state reached so far.  The goroutines of `mergeMessages` are embedded as a
step relation: a state, the atomic steps of each goroutine, and schedules of such steps.
-/

namespace DistributedSignup

/-! ## Package `account` -/

/-- Go error values that reach the code of this repository.  `account` is the repository's own
`account.Error` string type, `pgNoRows` is `pgx.ErrNoRows`, the others are errors of the named
library carrying its message. -/
inductive Error where
  | account (msg : String)
  | pgNoRows
  | pg (msg : String)
  | kafka (msg : String)
  | json (msg : String)
  | ksuid (msg : String)
  deriving DecidableEq, Repr

/-- Constant `account.ErrUserNotFound` of `src/error.go`. -/
def ErrUserNotFound : Error := Error.account "user not found"

/-- Modelled from the spec: the declaration of `account.User` is not among the sources; the fields
are the ones the code reads and writes (`u.ID`, `u.Username`). -/
structure User where
  ID : String
  Username : String
  deriving DecidableEq, Repr

/-- Modelled from the spec: the declaration of `account.SignupRequest` is not among the sources.
`Partition` (Go `int32`) and `SequenceID` (Go `int64`) are copied from the consumed message and
are not part of the payload. -/
structure SignupRequest where
  ID : String
  Username : String
  Partition : Int
  SequenceID : Int
  deriving DecidableEq, Repr

/-- Modelled from the spec: the declaration of `account.SignupResponse` is not among the sources.
`Partition` and `SequenceID` are copied from the consumed message and are not part of the
payload. -/
structure SignupResponse where
  RequestID : String
  Username : String
  Success : Bool
  Partition : Int
  SequenceID : Int
  deriving DecidableEq, Repr

/-- What a piece of Go code that may call `log.Fatalf` does to the state `σ` of the outside world:
it returns a value, or the process exits with a message.  The state is kept in both cases, since
the table and the topics outlive the process. -/
inductive Outcome (σ : Type) (α : Type) where
  | ret (a : α) (s : σ)
  | fatal (msg : String) (s : σ)
  deriving DecidableEq, Repr

/-- State of the outside world in which an outcome ends. -/
def Outcome.state {σ α : Type} : Outcome σ α → σ
  | .ret _ s => s
  | .fatal _ s => s

/-- Whether the code returned to its caller instead of exiting the process. -/
def Outcome.returned {σ α : Type} : Outcome σ α → Bool
  | .ret _ _ => true
  | .fatal _ _ => false

/-- A callback applied to a list of records in order, the state threaded through; a callback that
exits the process ends the run. -/
def forEach {α σ : Type} (f : α → σ → Outcome σ Unit) : List α → σ → Outcome σ Unit
  | [], s => .ret () s
  | a :: as, s =>
    match f a s with
    | .ret _ s' => forEach f as s'
    | .fatal msg s' => .fatal msg s'

/-! ## Package `pg` -/

/-- Result of the prepared statement `byUsername`, `SELECT id FROM account WHERE username=$1`,
scanned into one `id`: the id of the row with that username, or `pgx.ErrNoRows`. -/
def queryByUsername (table : List User) (username : String) : Except Error String :=
  match table.find? (fun row => row.Username == username) with
  | some row => .ok row.ID
  | none => .error Error.pgNoRows

/-- Result of the prepared statement `create`, `INSERT INTO account (id, username) VALUES ($1, $2)`,
on a table with the constraints of `pg.UserSchema`, `PRIMARY KEY(id)` and `UNIQUE(username)`:
the row is appended unless one of the two constraints rejects it.  The length limits of the two
columns are not part of the table; a value the database refuses for another reason is a fault of
`CreateUser`. -/
def execCreate (table : List User) (u : User) : Except Error (List User) :=
  if table.any (fun row => row.ID == u.ID) then
    .error (Error.pg "duplicate key value violates unique constraint \"account_pkey\"")
  else if table.any (fun row => row.Username == u.Username) then
    .error (Error.pg "duplicate key value violates unique constraint \"account_username_key\"")
  else
    .ok (table ++ [u])

/-- Method `UserService.CreateUser` of `src/pg/user_service.go`: runs `create` and returns its
error.  `fault` is an error of the connection pool that strikes before the statement runs
(`none` when the database answers). -/
def CreateUser (fault : Option String) (table : List User) (u : User) :
    Option Error × List User :=
  match fault with
  | some msg => (some (Error.pg msg), table)
  | none =>
    match execCreate table u with
    | .ok table' => (none, table')
    | .error e => (some e, table)

/-- Method `UserService.ByUsername` of `src/pg/user_service.go`: starts from
`account.User{Username: username}`, scans the id into it and maps `pgx.ErrNoRows` to
`account.ErrUserNotFound`; the user is returned together with the error. -/
def ByUsername (fault : Option String) (table : List User) (username : String) :
    User × Option Error :=
  let u : User := { ID := "", Username := username }
  let res : Except Error String :=
    match fault with
    | some msg => .error (Error.pg msg)
    | none => queryByUsername table username
  match res with
  | .ok id => ({ u with ID := id }, none)
  | .error err => (u, some (if err = Error.pgNoRows then ErrUserNotFound else err))

/-- The end of `UserService.ByUsername`: `res` is what `QueryRowEx(..).Scan(&u.ID)` gave, the id
or an error; `pgx.ErrNoRows` becomes `account.ErrUserNotFound`, any other error is returned as
it is. -/
def scanByUsername (res : Except Error String) (username : String) : User × Option Error :=
  match res with
  | .ok id => ({ ID := id, Username := username }, none)
  | .error err =>
    ({ ID := "", Username := username },
      some (if err = Error.pgNoRows then ErrUserNotFound else err))

/-- What the connection pool answers to the statement `byUsername`: its own fault, or the result
of the query on the table. -/
def poolByUsername (fault : Option String) (table : List User) (username : String) :
    Except Error String :=
  match fault with
  | some msg => .error (Error.pg msg)
  | none => queryByUsername table username

/-- A sequence of `CreateUser` calls, each with the fault that strikes it, applied to a table; the
calls that return an error leave the table as it is. -/
def createMany : List (Option String × User) → List User → List User
  | [], table => table
  | (fault, u) :: calls, table => createMany calls (CreateUser fault table u).2

/-- Whether the table holds a user with this username. -/
def taken (table : List User) (username : String) : Bool :=
  table.any (fun row => row.Username == username)

/-! ## Go strings as bytes: package `unicode/utf8` -/

/-- Function `utf8.EncodeRune` on a Unicode character: its one to four bytes.  A byte is a natural
number below 256. -/
def encodeRune (c : Char) : List Nat :=
  if c.toNat < 0x80 then [c.toNat]
  else if c.toNat < 0x800 then [0xC0 + c.toNat / 0x40, 0x80 + c.toNat % 0x40]
  else if c.toNat < 0x10000 then
    [0xE0 + c.toNat / 0x1000, 0x80 + c.toNat / 0x40 % 0x40, 0x80 + c.toNat % 0x40]
  else
    [0xF0 + c.toNat / 0x40000, 0x80 + c.toNat / 0x1000 % 0x40, 0x80 + c.toNat / 0x40 % 0x40,
      0x80 + c.toNat % 0x40]

/-- Bytes of the Go string that holds the text `s`, its UTF-8 encoding. -/
def utf8 (s : String) : List Nat := s.toList.flatMap encodeRune

/-- Bytes of a text of ASCII characters, one byte per character. -/
def ascii (s : String) : List Nat := s.toList.map Char.toNat

/-- Lowest second byte `utf8.DecodeRune` accepts after the first byte `p0` (table
`acceptRanges`). -/
def acceptLo (p0 : Nat) : Nat :=
  if p0 = 0xE0 then 0xA0 else if p0 = 0xF0 then 0x90 else 0x80

/-- Highest second byte `utf8.DecodeRune` accepts after the first byte `p0`. -/
def acceptHi (p0 : Nat) : Nat :=
  if p0 = 0xED then 0x9F else if p0 = 0xF4 then 0x8F else 0xBF

/-- Function `utf8.DecodeRune`: the character at the head of `p` and the number of bytes it takes.
Bytes that start no well-formed character (a stray continuation byte, an over-long form, a
surrogate, a value above U+10FFFF, a character cut short) give `(U+FFFD, 1)`, and the empty input
gives `(U+FFFD, 0)`. -/
def decodeRune : List Nat → Nat × Nat
  | [] => (0xFFFD, 0)
  | p0 :: rest =>
    if p0 < 0x80 then (p0, 1)
    else if p0 < 0xC2 ∨ 0xF4 < p0 then (0xFFFD, 1)
    else
      match rest with
      | [] => (0xFFFD, 1)
      | b1 :: rest1 =>
        if b1 < acceptLo p0 ∨ acceptHi p0 < b1 then (0xFFFD, 1)
        else if p0 < 0xE0 then (p0 % 0x20 * 0x40 + b1 % 0x40, 2)
        else
          match rest1 with
          | [] => (0xFFFD, 1)
          | b2 :: rest2 =>
            if b2 < 0x80 ∨ 0xBF < b2 then (0xFFFD, 1)
            else if p0 < 0xF0 then (p0 % 0x10 * 0x1000 + b1 % 0x40 * 0x40 + b2 % 0x40, 3)
            else
              match rest2 with
              | [] => (0xFFFD, 1)
              | b3 :: _ =>
                if b3 < 0x80 ∨ 0xBF < b3 then (0xFFFD, 1)
                else
                  (p0 % 8 * 0x40000 + b1 % 0x40 * 0x1000 + b2 % 0x40 * 0x40 + b3 % 0x40, 4)

/-! ## `encoding/json` on the records of package `account` -/

/-- Byte of the lower-case hexadecimal digit `n`, as in the table `"0123456789abcdef"` of
`encoding/json`. -/
def hexDigit (n : Nat) : Nat := (Nat.digitChar n).toNat

/-- Value of the byte of a hexadecimal digit in either case. -/
def hexVal (c : Nat) : Option Nat :=
  if '0'.toNat ≤ c ∧ c ≤ '9'.toNat then some (c - 48)
  else if 'a'.toNat ≤ c ∧ c ≤ 'f'.toNat then some (c - 87)
  else if 'A'.toNat ≤ c ∧ c ≤ 'F'.toNat then some (c - 55)
  else none

/-- The loop of `appendString` of `encoding/json` with HTML escaping on, as `json.Marshal` runs
it on a Go string: `skip` counts the bytes of the current character that are still to be passed
over, the character itself having been written when its first byte was met.  A quote and a
backslash get a backslash; backspace, form feed, newline, carriage return and tab their short
form; the other control characters and `<`, `>`, `&` the form `\u00XX`; a byte that starts no
well-formed character is written as `\ufffd`; U+2028 and U+2029 are written as `\u202X`; every
other character is copied.  The closing quote ends the output.  (Releases of Go before 1.22
write backspace and form feed as `\u0008` and `\u000c`, which the decoder reads as the same
characters.) -/
def appendStringAux : Nat → List Nat → List Nat
  | _, [] => ['"'.toNat]
  | skip + 1, _ :: rest => appendStringAux skip rest
  | 0, b :: rest =>
    if b < 0x80 then
      if 0x20 ≤ b ∧ b ≠ '"'.toNat ∧ b ≠ '\\'.toNat ∧ b ≠ '<'.toNat ∧ b ≠ '>'.toNat
          ∧ b ≠ '&'.toNat then
        b :: appendStringAux 0 rest
      else if b = '\\'.toNat ∨ b = '"'.toNat then '\\'.toNat :: b :: appendStringAux 0 rest
      else if b = 0x08 then '\\'.toNat :: 'b'.toNat :: appendStringAux 0 rest
      else if b = 0x0C then '\\'.toNat :: 'f'.toNat :: appendStringAux 0 rest
      else if b = 0x0A then '\\'.toNat :: 'n'.toNat :: appendStringAux 0 rest
      else if b = 0x0D then '\\'.toNat :: 'r'.toNat :: appendStringAux 0 rest
      else if b = 0x09 then '\\'.toNat :: 't'.toNat :: appendStringAux 0 rest
      else
        '\\'.toNat :: 'u'.toNat :: '0'.toNat :: '0'.toNat :: hexDigit (b / 16) ::
          hexDigit (b % 16) :: appendStringAux 0 rest
    else
      match decodeRune (b :: rest) with
      | (c, size) =>
        if c = 0xFFFD ∧ size = 1 then ascii "\\ufffd" ++ appendStringAux 0 rest
        else if c = 0x2028 ∨ c = 0x2029 then
          ascii "\\u202" ++ hexDigit (c % 16) :: appendStringAux (size - 1) rest
        else (b :: rest).take size ++ appendStringAux (size - 1) rest

/-- Function `appendString` of `encoding/json`: the JSON string literal `json.Marshal` writes for
the Go string with the bytes `src`. -/
def appendString (src : List Nat) : List Nat :=
  '"'.toNat :: appendStringAux 0 src

/-- Tokens of a JSON text.  A string token carries the decoded string; a number carries
nothing, since no field of the two records takes a number. -/
inductive Token where
  | lbrace
  | rbrace
  | lbrack
  | rbrack
  | colon
  | comma
  | str (s : List Char)
  | num
  | tru
  | fls
  | null
  deriving DecidableEq, Repr

/-- Where the scanner stands inside a number: the states `stateNeg`, `state0`, `state1`,
`stateDot`, `stateDot0`, `stateE`, `stateESign` and `stateE0` of `encoding/json`. -/
inductive NumState where
  | neg
  | zero
  | int
  | dot
  | frac
  | e
  | esign
  | exp
  deriving DecidableEq, Repr

/-- Where the reader of a JSON text stands: between tokens; inside a string literal between
characters, passing over the `left` remaining bytes of a character, right after a backslash, or
inside a `\u` escape with `left` hexadecimal digits still to read and `acc` the value of the
digits read; inside one of the words `true`, `false`, `null` with the bytes `rest` still to come;
inside a number.  `pending` holds an escaped high surrogate read just before. -/
inductive LexState where
  | start
  | plain (pending : Option Nat)
  | skip (left : Nat)
  | escape (pending : Option Nat)
  | hex (pending : Option Nat) (left : Nat) (acc : Nat)
  | lit (rest : List Nat)
  | num (n : NumState)
  deriving DecidableEq, Repr

/-- White space of JSON: space, tab, carriage return, newline (`isSpace`). -/
def isSpace (c : Nat) : Bool :=
  c = ' '.toNat ∨ c = '\t'.toNat ∨ c = '\r'.toNat ∨ c = '\n'.toNat

/-- Whether a byte is a decimal digit. -/
def isDigit (c : Nat) : Bool := '0'.toNat ≤ c ∧ c ≤ '9'.toNat

/-- What a byte between tokens starts: the token, if the byte decides it, and the state after
the byte; `none` for a byte that starts no token.  The token of a string is produced at its
closing quote. -/
def beginToken (c : Nat) : Option (Option Token × LexState) :=
  if isSpace c then some (none, .start)
  else if c = '{'.toNat then some (some .lbrace, .start)
  else if c = '}'.toNat then some (some .rbrace, .start)
  else if c = '['.toNat then some (some .lbrack, .start)
  else if c = ']'.toNat then some (some .rbrack, .start)
  else if c = ':'.toNat then some (some .colon, .start)
  else if c = ','.toNat then some (some .comma, .start)
  else if c = '"'.toNat then some (none, .plain none)
  else if c = '-'.toNat then some (some .num, .num .neg)
  else if c = '0'.toNat then some (some .num, .num .zero)
  else if isDigit c then some (some .num, .num .int)
  else if c = 't'.toNat then some (some .tru, .lit (ascii "rue"))
  else if c = 'f'.toNat then some (some .fls, .lit (ascii "alse"))
  else if c = 'n'.toNat then some (some .null, .lit (ascii "ull"))
  else none

/-- State of the number after one more byte of it, `none` when the byte cannot continue the
number. -/
def numStep (n : NumState) (c : Nat) : Option NumState :=
  match n with
  | .neg => if c = '0'.toNat then some .zero else if isDigit c then some .int else none
  | .zero =>
    if c = '.'.toNat then some .dot
    else if c = 'e'.toNat ∨ c = 'E'.toNat then some .e else none
  | .int =>
    if isDigit c then some .int
    else if c = '.'.toNat then some .dot
    else if c = 'e'.toNat ∨ c = 'E'.toNat then some .e else none
  | .dot => if isDigit c then some .frac else none
  | .frac =>
    if isDigit c then some .frac
    else if c = 'e'.toNat ∨ c = 'E'.toNat then some .e else none
  | .e =>
    if c = '+'.toNat ∨ c = '-'.toNat then some .esign
    else if isDigit c then some .exp else none
  | .esign => if isDigit c then some .exp else none
  | .exp => if isDigit c then some .exp else none

/-- Whether the bytes read so far are a complete number. -/
def numDone (n : NumState) : Bool :=
  match n with
  | .zero => true
  | .int => true
  | .frac => true
  | .exp => true
  | _ => false

/-- Character named by a one-letter escape. -/
def unescapeLetter (e : Nat) : Option Char :=
  if e = '"'.toNat then some '"'
  else if e = '\\'.toNat then some '\\'
  else if e = '/'.toNat then some '/'
  else if e = 'b'.toNat then some (Char.ofNat 8)
  else if e = 'f'.toNat then some (Char.ofNat 12)
  else if e = 'n'.toNat then some '\n'
  else if e = 'r'.toNat then some '\r'
  else if e = 't'.toNat then some '\t'
  else none

/-- Puts a token in front of the tokens of the rest of the text. -/
def emit (t : Option Token) (r : Option (List Token)) : Option (List Token) :=
  match t with
  | some t => r.map (fun ts => t :: ts)
  | none => r

/-- Puts a decoded character in front of the string token that the rest of the text starts
with. -/
def pushChar (c : Char) (r : Option (List Token)) : Option (List Token) :=
  match r with
  | some (.str s :: ts) => some (.str (c :: s) :: ts)
  | _ => none

/-- Emits U+FFFD for a high surrogate that was left without its low half. -/
def flushPending (pending : Option Nat) (r : Option (List Token)) : Option (List Token) :=
  match pending with
  | some _ => pushChar (Char.ofNat 0xFFFD) r
  | none => r

/-- State inside a string after the first byte of a character of `size` bytes. -/
def afterRune (size : Nat) : LexState :=
  if size ≤ 1 then .plain none else .skip (size - 1)

/-- Splits a JSON text into its tokens, byte by byte, as the scanner of `encoding/json` reads it;
`none` for a text that has a byte no token allows.  String literals are decoded as `unquote`
does: a raw control character, an unknown escape and a `\u` without four hexadecimal digits are
errors; a `\u` escape names a UTF-16 unit, a high surrogate directly followed by an escaped low
surrogate is one character, any other surrogate becomes U+FFFD; bytes that start no well-formed
UTF-8 character become U+FFFD, one per byte. -/
def lexAux : LexState → List Nat → Option (List Token)
  | st, [] =>
    match st with
    | .start => some []
    | .num n => if numDone n then some [] else none
    | _ => none
  | st, c :: cs =>
    match st with
    | .start =>
      match beginToken c with
      | none => none
      | some (t, st') => emit t (lexAux st' cs)
    | .num n =>
      match numStep n c with
      | some n' => lexAux (.num n') cs
      | none =>
        if numDone n then
          match beginToken c with
          | none => none
          | some (t, st') => emit t (lexAux st' cs)
        else none
    | .lit rest =>
      match rest with
      | [] => none
      | x :: rest' =>
        if c = x then lexAux (if rest' = [] then .start else .lit rest') cs else none
    | .plain pending =>
      if c = '"'.toNat then flushPending pending (emit (some (.str [])) (lexAux .start cs))
      else if c = '\\'.toNat then lexAux (.escape pending) cs
      else if c < 0x20 then none
      else if c < 0x80 then
        flushPending pending (pushChar (Char.ofNat c) (lexAux (.plain none) cs))
      else
        flushPending pending
          (pushChar (Char.ofNat (decodeRune (c :: cs)).1)
            (lexAux (afterRune (decodeRune (c :: cs)).2) cs))
    | .skip left => lexAux (afterRune left) cs
    | .escape pending =>
      if c = 'u'.toNat then lexAux (.hex pending 4 0) cs
      else
        match unescapeLetter c with
        | none => none
        | some ch => flushPending pending (pushChar ch (lexAux (.plain none) cs))
    | .hex pending left acc =>
      match hexVal c with
      | none => none
      | some v =>
        if 1 < left then lexAux (.hex pending (left - 1) (acc * 16 + v)) cs
        else if 0xDC00 ≤ acc * 16 + v ∧ acc * 16 + v < 0xE000 then
          match pending with
          | some hi =>
            pushChar (Char.ofNat (0x10000 + (hi - 0xD800) * 0x400 + (acc * 16 + v - 0xDC00)))
              (lexAux (.plain none) cs)
          | none => pushChar (Char.ofNat 0xFFFD) (lexAux (.plain none) cs)
        else if 0xD800 ≤ acc * 16 + v ∧ acc * 16 + v < 0xDC00 then
          flushPending pending (lexAux (.plain (some (acc * 16 + v))) cs)
        else
          flushPending pending
            (pushChar (Char.ofNat (acc * 16 + v)) (lexAux (.plain none) cs))

/-- Tokens of a JSON text read from its first byte on. -/
def lex (data : List Nat) : Option (List Token) := lexAux .start data

/-- What the scanner is inside of: an object before a key or before the colon
(`parseObjectKey`), an object after the colon (`parseObjectValue`), an array
(`parseArrayValue`). -/
inductive ParseState where
  | objectKey
  | objectValue
  | arrayValue
  deriving DecidableEq, Repr

/-- What the scanner expects next: `stateBeginValue`, `stateBeginValueOrEmpty`,
`stateBeginString`, `stateBeginStringOrEmpty` and `stateEndValue` of `encoding/json`. -/
inductive ScanState where
  | beginValue
  | beginValueOrEmpty
  | beginString
  | beginStringOrEmpty
  | endValue
  deriving DecidableEq, Repr

/-- Constant `maxNestingDepth` of `encoding/json`. -/
def maxNestingDepth : Nat := 10000

/-- One step of the scanner on a token at the start of a value. -/
def beginValue (stack : List ParseState) (t : Token) : Option (ScanState × List ParseState) :=
  match t with
  | .lbrace =>
    if stack.length < maxNestingDepth then some (.beginStringOrEmpty, .objectKey :: stack)
    else none
  | .lbrack =>
    if stack.length < maxNestingDepth then some (.beginValueOrEmpty, .arrayValue :: stack)
    else none
  | .str _ => some (.endValue, stack)
  | .num => some (.endValue, stack)
  | .tru => some (.endValue, stack)
  | .fls => some (.endValue, stack)
  | .null => some (.endValue, stack)
  | _ => none

/-- One step of the scanner on a token: the next state and the next stack of open objects and
arrays, `none` for a token the grammar does not allow here. -/
def scanStep (st : ScanState) (stack : List ParseState) (t : Token) :
    Option (ScanState × List ParseState) :=
  match st with
  | .beginValue => beginValue stack t
  | .beginValueOrEmpty =>
    match t with
    | .rbrack => some (.endValue, stack.tail)
    | _ => beginValue stack t
  | .beginString =>
    match t with
    | .str _ => some (.endValue, stack)
    | _ => none
  | .beginStringOrEmpty =>
    match t with
    | .rbrace => some (.endValue, stack.tail)
    | .str _ => some (.endValue, stack)
    | _ => none
  | .endValue =>
    match stack with
    | [] => none
    | .objectKey :: below =>
      match t with
      | .colon => some (.beginValue, .objectValue :: below)
      | _ => none
    | .objectValue :: below =>
      match t with
      | .comma => some (.beginString, .objectKey :: below)
      | .rbrace => some (.endValue, below)
      | _ => none
    | .arrayValue :: below =>
      match t with
      | .comma => some (.beginValue, .arrayValue :: below)
      | .rbrack => some (.endValue, below)
      | _ => none

/-- Runs the scanner over the tokens; at the end of the text one whole value must have been
read. -/
def scan : ScanState → List ParseState → List Token → Bool
  | st, stack, [] => st = .endValue ∧ stack = []
  | st, stack, t :: ts =>
    match scanStep st stack t with
    | none => false
    | some (st', stack') => scan st' stack' ts

/-- Function `checkValid` of `encoding/json`: the tokens of the text when it is one JSON value
(an object, an array, a string, a number, `true`, `false` or `null`, nested at most
`maxNestingDepth` deep, white space around the tokens allowed), `none` when it is not, the case
in which `json.Unmarshal` returns a `SyntaxError`. -/
def checkValid (data : List Nat) : Option (List Token) :=
  match lex data with
  | none => none
  | some ts => if scan .beginValue [] ts then some ts else none

/-- Values of the members of a JSON object as far as the decoder of a record tells them apart:
a string with its content, a boolean, `null`, and the kinds no field of the records accepts. -/
inductive JValue where
  | str (s : List Char)
  | bool (b : Bool)
  | null
  | number
  | array
  | object
  deriving DecidableEq, Repr

/-- Where the reader of the members of an object stands: before a key, before the colon after
the key `k`, before the value of `k`, inside the array or object that is the value of a member
with `depth` further arrays and objects open, after a value. -/
inductive MemberState where
  | key
  | colon (k : List Char)
  | value (k : List Char)
  | inside (depth : Nat)
  | next
  deriving DecidableEq, Repr

/-- Members of the object whose tokens after the opening brace are given, in the order of the
text, for a text `checkValid` accepts. -/
def membersAux : MemberState → List Token → List (List Char × JValue)
  | _, [] => []
  | st, t :: ts =>
    match st with
    | .key =>
      match t with
      | .str k => membersAux (.colon k) ts
      | _ => []
    | .colon k => membersAux (.value k) ts
    | .value k =>
      match t with
      | .str s => (k, .str s) :: membersAux .next ts
      | .tru => (k, .bool true) :: membersAux .next ts
      | .fls => (k, .bool false) :: membersAux .next ts
      | .null => (k, .null) :: membersAux .next ts
      | .num => (k, .number) :: membersAux .next ts
      | .lbrack => (k, .array) :: membersAux (.inside 0) ts
      | .lbrace => (k, .object) :: membersAux (.inside 0) ts
      | _ => []
    | .inside depth =>
      match t with
      | .lbrack => membersAux (.inside (depth + 1)) ts
      | .lbrace => membersAux (.inside (depth + 1)) ts
      | .rbrack => membersAux (if depth = 0 then .next else .inside (depth - 1)) ts
      | .rbrace => membersAux (if depth = 0 then .next else .inside (depth - 1)) ts
      | _ => membersAux (.inside depth) ts
    | .next =>
      match t with
      | .comma => membersAux .key ts
      | _ => []

/-- What `json.Unmarshal` into a struct sees of a valid text: the members of an object, no
member for `null` (which leaves the struct as it is), and `none` for an array, a string, a number
or a boolean, which a struct does not accept (`UnmarshalTypeError`). -/
def members (ts : List Token) : Option (List (List Char × JValue)) :=
  match ts with
  | .lbrace :: rest => some (membersAux .key rest)
  | [.null] => some []
  | _ => none

/-- Function `foldRune` of `encoding/json` as far as a name of ASCII characters can tell: a small
ASCII letter folds to its capital, U+017F (long s) to `S`, U+212A (Kelvin sign) to `K`; these two
are the only characters outside ASCII whose case folding holds an ASCII character, so every other
character, which the library folds to a character outside ASCII, is left as it is. -/
def foldRune (c : Char) : Char :=
  if 'a' ≤ c ∧ c ≤ 'z' then Char.ofNat (c.toNat - 32)
  else if c.toNat = 0x17F then 'S'
  else if c.toNat = 0x212A then 'K'
  else c

/-- Function `foldName` of `encoding/json`. -/
def foldName (s : List Char) : List Char := s.map foldRune

/-- Whether the member name `key` selects the field with the JSON name `name`: the two are equal
up to case folding.  `name` is a name of ASCII characters. -/
def matchesField (name : String) (key : List Char) : Bool :=
  foldName key = foldName name.toList

/-- Stores the members that select the field `name` into a string field, in member order: a
string replaces the field, `null` leaves it, any other value is a type error
(`UnmarshalTypeError`), with which `json.Unmarshal` ends after the last member. -/
def stringField (name : String) : List (List Char × JValue) → String → Option String
  | [], acc => some acc
  | (k, v) :: ms, acc =>
    if matchesField name k then
      match v with
      | JValue.str s => stringField name ms (String.mk s)
      | JValue.null => stringField name ms acc
      | _ => none
    else stringField name ms acc

/-- Stores the members that select the field `name` into a boolean field, in member order. -/
def boolField (name : String) : List (List Char × JValue) → Bool → Option Bool
  | [], acc => some acc
  | (k, v) :: ms, acc =>
    if matchesField name k then
      match v with
      | JValue.bool b => boolField name ms b
      | JValue.null => boolField name ms acc
      | _ => none
    else boolField name ms acc

/-- Text of a Go error, what `%v` prints for it. -/
def Error.text : Error → String
  | .account msg => msg
  | .pgNoRows => "no rows in result set"
  | .pg msg => msg
  | .kafka msg => msg
  | .json msg => msg
  | .ksuid msg => msg

/-- Modelled from the spec: the struct tags of `account.SignupRequest` are not among the sources;
the payload holds the identifier and the username and nothing else.  This is `json.Marshal` on a
request whose identifier and username are the Go strings with the bytes `id` and `username`,
well-formed UTF-8 or not: an object with the two string members in field order.  The member names
`id` and `username` stand for the names the tags give. -/
def marshalRequest (id username : List Nat) : List Nat :=
  ascii "\x7b\"id\":" ++ appendString id ++ ascii ",\"username\":" ++ appendString username
    ++ ascii "\x7d"

/-- Function `json.Marshal` on a request whose identifier and username are texts. -/
def jsonMarshalRequest (r : SignupRequest) : List Nat :=
  marshalRequest (utf8 r.ID) (utf8 r.Username)

/-- Function `json.Unmarshal` into a zero `account.SignupRequest`.  A payload that is not one JSON
value is a syntax error.  An object stores its members `id` and `username`, the names matched
without regard to case, into the two fields, a later member replacing an earlier one, and skips
every other member; `null` stores nothing.  A member of another type than its field, and a payload
that is an array, a string, a number or a boolean, is a type error.  `Partition` and `SequenceID`
keep their zero value.  The text of the error is not modelled: every syntax error carries one text
and every type error another. -/
def jsonUnmarshalRequest (payload : List Nat) : Except Error SignupRequest :=
  match checkValid payload with
  | none => .error (Error.json "invalid character in payload")
  | some ts =>
    match members ts with
    | none => .error (Error.json "cannot unmarshal value into Go value of type struct")
    | some ms =>
      match stringField "id" ms "", stringField "username" ms "" with
      | some id, some name => .ok { ID := id, Username := name, Partition := 0, SequenceID := 0 }
      | _, _ => .error (Error.json "cannot unmarshal value into Go struct field of type string")

/-- Modelled from the spec: the struct tags of `account.SignupResponse` are not among the sources;
the payload holds the request identifier, the username and the success flag and nothing else.
This is `json.Marshal` on a response.  The member names stand for the names the tags give. -/
def jsonMarshalResponse (r : SignupResponse) : List Nat :=
  ascii "\x7b\"request_id\":" ++ appendString (utf8 r.RequestID)
    ++ ascii ",\"username\":" ++ appendString (utf8 r.Username)
    ++ ascii ",\"success\":" ++ ascii (if r.Success then "true" else "false") ++ ascii "\x7d"

/-- Function `json.Unmarshal` into a zero `account.SignupResponse`, with the same rules as for a
request; the member `success` takes a boolean. -/
def jsonUnmarshalResponse (payload : List Nat) : Except Error SignupResponse :=
  match checkValid payload with
  | none => .error (Error.json "invalid character in payload")
  | some ts =>
    match members ts with
    | none => .error (Error.json "cannot unmarshal value into Go value of type struct")
    | some ms =>
      match stringField "request_id" ms "", stringField "username" ms "",
        boolField "success" ms false with
      | some id, some name, some ok =>
        .ok { RequestID := id, Username := name, Success := ok, Partition := 0, SequenceID := 0 }
      | _, _, _ => .error (Error.json "cannot unmarshal value into Go struct field")

/-! ## Package `kafka` -/

/-- Struct `kafka.Config` of `src/kafka/config.go`, without the logger. -/
structure Config where
  brokers : List String
  requestTopic : String
  requestPartition : Int
  requestOffset : Int
  responseTopic : String
  deriving DecidableEq, Repr

/-- Constant `defaultRequestTopic`. -/
def defaultRequestTopic : String := "account.signup_request"

/-- Constant `defaultRequestOffset`, which is `sarama.OffsetNewest`. -/
def defaultRequestOffset : Int := -1

/-- Constant `defaultResponseTopic`. -/
def defaultResponseTopic : String := "account.signup_response"

/-- Configuration `NewSignupService` starts from, before the options are applied. -/
def defaultConfig : Config :=
  { brokers := [], requestTopic := defaultRequestTopic, requestPartition := 0,
    requestOffset := defaultRequestOffset, responseTopic := defaultResponseTopic }

/-- Struct `sarama.ProducerMessage`, the fields this repository sets; the value is the payload,
a sequence of bytes. -/
structure ProducerMessage where
  Topic : String
  Key : String
  Value : List Nat
  deriving DecidableEq, Repr

/-- Struct `sarama.ConsumerMessage`, the fields this repository reads; the value is the payload,
a sequence of bytes. -/
structure ConsumerMessage where
  Topic : String
  Partition : Int
  Offset : Int
  Value : List Nat
  deriving DecidableEq, Repr

/-- Method `SyncProducer.SendMessage`: the broker acknowledges the message, which is then part of
the log, or the send fails with `fault` and the log is unchanged. -/
def SendMessage (fault : Option String) (log : List ProducerMessage) (m : ProducerMessage) :
    Except Error (List ProducerMessage) :=
  match fault with
  | some msg => .error (Error.kafka msg)
  | none => .ok (log ++ [m])

/-- Message `SignupService.CreateRequest` builds: request topic, the username as key, the JSON
encoding of the request as value. -/
def requestMessage (cfg : Config) (req : SignupRequest) : ProducerMessage :=
  { Topic := cfg.requestTopic, Key := req.Username, Value := jsonMarshalRequest req }

/-- Method `SignupService.CreateRequest` of `src/kafka/signup_service.go`: encode, build the
message, send it, return the error of the send.  `json.Marshal` has no error on this record, so
the first `return err` of the source is never taken. -/
def CreateRequest (cfg : Config) (fault : Option String) (req : SignupRequest)
    (log : List ProducerMessage) : Option Error × List ProducerMessage :=
  match SendMessage fault log (requestMessage cfg req) with
  | .error err => (some err, log)
  | .ok log' => (none, log')

/-- Message `SignupService.CreateResponse` builds: response topic, the username as key, the JSON
encoding of the response as value. -/
def responseMessage (cfg : Config) (resp : SignupResponse) : ProducerMessage :=
  { Topic := cfg.responseTopic, Key := resp.Username, Value := jsonMarshalResponse resp }

/-- Method `SignupService.CreateResponse` of `src/kafka/signup_service.go`: encode, build the
message, send it, return the error of the send. -/
def CreateResponse (cfg : Config) (fault : Option String) (resp : SignupResponse)
    (log : List ProducerMessage) : Option Error × List ProducerMessage :=
  match SendMessage fault log (responseMessage cfg resp) with
  | .error err => (some err, log)
  | .ok log' => (none, log')

/-- The loop `for m := range pConsumer.Messages()` of `SignupService.Requests` over the messages
the partition consumer delivers before its channel is closed: decode the payload, return the
decode error if there is one, otherwise attach partition and offset and call `f`.  The decoder
is the parameter `unmarshal`, which stands for `json.Unmarshal` into a zero request. -/
def consumeRequests {σ : Type} (unmarshal : List Nat → Except Error SignupRequest)
    (f : SignupRequest → σ → Outcome σ Unit) :
    List ConsumerMessage → σ → Outcome σ (Option Error)
  | [], s => .ret none s
  | m :: ms, s =>
    match unmarshal m.Value with
    | .error err => .ret (some err) s
    | .ok r =>
      match f { r with Partition := m.Partition, SequenceID := m.Offset } s with
      | .ret _ s' => consumeRequests unmarshal f ms s'
      | .fatal msg s' => .fatal msg s'

/-- Method `SignupService.Requests` of `src/kafka/signup_service.go` with the decoder as a
parameter: `openFault` is the error of `ConsumePartition`, `msgs` the messages delivered until the
context is cancelled. -/
def RequestsWith {σ : Type} (unmarshal : List Nat → Except Error SignupRequest)
    (openFault : Option String) (msgs : List ConsumerMessage)
    (f : SignupRequest → σ → Outcome σ Unit) (s : σ) : Outcome σ (Option Error) :=
  match openFault with
  | some msg => .ret (some (Error.kafka msg)) s
  | none => consumeRequests unmarshal f msgs s

/-- Method `SignupService.Requests` of `src/kafka/signup_service.go`, which decodes with
`json.Unmarshal`. -/
def Requests {σ : Type} (openFault : Option String) (msgs : List ConsumerMessage)
    (f : SignupRequest → σ → Outcome σ Unit) (s : σ) : Outcome σ (Option Error) :=
  RequestsWith jsonUnmarshalRequest openFault msgs f s

/-- The loop `for m := range messages` of `SignupService.Responses` over the merged stream; the
decoder is the parameter `unmarshal`, which stands for `json.Unmarshal` into a zero response. -/
def consumeResponses {σ : Type} (unmarshal : List Nat → Except Error SignupResponse)
    (f : SignupResponse → σ → Outcome σ Unit) :
    List ConsumerMessage → σ → Outcome σ (Option Error)
  | [], s => .ret none s
  | m :: ms, s =>
    match unmarshal m.Value with
    | .error err => .ret (some err) s
    | .ok r =>
      match f { r with Partition := m.Partition, SequenceID := m.Offset } s with
      | .ret _ s' => consumeResponses unmarshal f ms s'
      | .fatal msg s' => .fatal msg s'

/-- Method `SignupService.Responses` of `src/kafka/signup_service.go` with the decoder as a
parameter: `openFault` is the error of `Partitions` or of one `ConsumePartition`, `merged` the
messages the merged stream delivers, in the order in which it delivers them, until the context is
cancelled. -/
def ResponsesWith {σ : Type} (unmarshal : List Nat → Except Error SignupResponse)
    (openFault : Option String) (merged : List ConsumerMessage)
    (f : SignupResponse → σ → Outcome σ Unit) (s : σ) : Outcome σ (Option Error) :=
  match openFault with
  | some msg => .ret (some (Error.kafka msg)) s
  | none => consumeResponses unmarshal f merged s

/-- Method `SignupService.Responses` of `src/kafka/signup_service.go`, which decodes with
`json.Unmarshal`. -/
def Responses {σ : Type} (openFault : Option String) (merged : List ConsumerMessage)
    (f : SignupResponse → σ → Outcome σ Unit) (s : σ) : Outcome σ (Option Error) :=
  ResponsesWith jsonUnmarshalResponse openFault merged f s

/-- Request a message hands to the callback of `Requests` when the decoder `unmarshal` accepts its
payload. -/
def deliveredRequest (unmarshal : List Nat → Except Error SignupRequest) (m : ConsumerMessage) :
    Option SignupRequest :=
  match unmarshal m.Value with
  | .ok r => some { r with Partition := m.Partition, SequenceID := m.Offset }
  | .error _ => none

/-- Response a message hands to the callback of `Responses` when the decoder `unmarshal` accepts
its payload. -/
def deliveredResponse (unmarshal : List Nat → Except Error SignupResponse) (m : ConsumerMessage) :
    Option SignupResponse :=
  match unmarshal m.Value with
  | .ok r => some { r with Partition := m.Partition, SequenceID := m.Offset }
  | .error _ => none

/-- Result of a read loop whose callbacks ended in `out` and which then returns `err`. -/
def finish {σ : Type} (out : Outcome σ Unit) (err : Option Error) : Outcome σ (Option Error) :=
  match out with
  | .ret _ s => .ret err s
  | .fatal msg s => .fatal msg s

/-- Callback that records what it is called with, in call order. -/
def record {α : Type} (a : α) (calls : List α) : Outcome (List α) Unit :=
  .ret () (calls ++ [a])

/-- One partition consumer handed to `mergeMessages` together with the goroutine that forwards
its messages: `delivered` are the messages `range pConsumer.Messages()` has yielded so far, in the
order of the partition's log, `channelClosed` whether the channel has been closed
(`pConsumer.Close()`), `held` the message the goroutine has received and is sending with
`messages <- m`, `done` whether the goroutine has left its loop and called `wg.Done()`. -/
structure Lane where
  delivered : List ConsumerMessage
  channelClosed : Bool
  held : Option ConsumerMessage
  done : Bool
  deriving DecidableEq, Repr

/-- State of `mergeMessages`: its lanes, the messages the reader has received from the merged
channel `messages`, each with the index of the goroutine that sent it, and whether
`close(messages)` has happened. -/
structure Merge where
  lanes : List Lane
  merged : List (Nat × ConsumerMessage)
  closed : Bool
  deriving DecidableEq, Repr

/-- The atomic steps of `mergeMessages` and of the partition consumers.  `receive i m` is the
receive of `range pConsumer.Messages()` in the goroutine of lane `i`, the partition delivering
`m`; `closePartition i` is the closing of that channel; `forward i` is the completed send
`messages <- m`, the reader taking the message; `finish i` is the end of the loop with
`wg.Done()`; `closeMerged` is the step of the last goroutine, `close(messages)` after
`wg.Wait()`. -/
inductive Action where
  | receive (i : Nat) (m : ConsumerMessage)
  | closePartition (i : Nat)
  | forward (i : Nat)
  | finish (i : Nat)
  | closeMerged
  deriving DecidableEq, Repr

/-- Function `mergeMessages` of `src/kafka/signup_service.go` right after its call on `n`
partition consumers: `wg.Add(n)`, an open unbuffered channel, one goroutine per consumer. -/
def mergeMessages (n : Nat) : Merge :=
  { lanes := List.replicate n
      { delivered := [], channelClosed := false, held := none, done := false },
    merged := [], closed := false }

/-- The state with lane `i` replaced. -/
def setLane (s : Merge) (i : Nat) (lane : Lane) : Merge :=
  { s with lanes := s.lanes.set i lane }

/-- One step: the state after the action, or `none` when the action cannot happen in this state.
A goroutine receives only while it is in its loop and not sending; a message that was buffered
when the channel was closed may still be received; the loop ends only on a closed channel;
`wg.Wait()` returns only when every goroutine is done. -/
def step (a : Action) (s : Merge) : Option Merge :=
  match a with
  | .receive i m =>
    match s.lanes[i]? with
    | none => none
    | some lane =>
      if lane.done = false ∧ lane.held = none then
        some (setLane s i { lane with delivered := lane.delivered ++ [m], held := some m })
      else none
  | .closePartition i =>
    match s.lanes[i]? with
    | none => none
    | some lane =>
      if lane.channelClosed then none
      else some (setLane s i { lane with channelClosed := true })
  | .forward i =>
    match s.lanes[i]? with
    | none => none
    | some lane =>
      match lane.held with
      | none => none
      | some m =>
        some { setLane s i { lane with held := none } with merged := s.merged ++ [(i, m)] }
  | .finish i =>
    match s.lanes[i]? with
    | none => none
    | some lane =>
      if lane.done = false ∧ lane.held = none ∧ lane.channelClosed = true then
        some (setLane s i { lane with done := true })
      else none
  | .closeMerged =>
    if s.closed = false ∧ s.lanes.all (fun lane => lane.done) = true then
      some { s with closed := true }
    else none

/-- A schedule, the steps taken one after the other; `none` when one of them cannot happen. -/
def run : List Action → Merge → Option Merge
  | [], s => some s
  | a :: rest, s =>
    match step a s with
    | none => none
    | some s' => run rest s'

/-- Messages of lane `i` in the merged stream, in the order in which the stream has them. -/
def forwarded (s : Merge) (i : Nat) : List ConsumerMessage :=
  (s.merged.filter (fun p => p.1 == i)).map (fun p => p.2)

/-- What holds in every state `mergeMessages` can reach: the merged stream has, of each lane,
exactly the delivered messages except the one being sent, in order; a goroutine that is done is
not sending and its channel is closed; the merged channel is closed only when every goroutine is
done; and every message of the merged stream comes from a lane. -/
def MergeInv (s : Merge) : Prop :=
  (∀ i lane, s.lanes[i]? = some lane →
    forwarded s i ++ lane.held.toList = lane.delivered ∧
    (lane.done = true → lane.held = none ∧ lane.channelClosed = true) ∧
    (s.closed = true → lane.done = true)) ∧
  (∀ p ∈ s.merged, p.1 < s.lanes.length)

/-! ## Command `signup-server` -/

/-- What the outside world does during one run of the request handler: the fault of the lookup,
the result of `ksuid.NewRandom`, the fault of the insert, the fault of the send (`none` for no
fault). -/
structure Env where
  lookupFault : Option String
  newID : Except String String
  createFault : Option String
  sendFault : Option String

/-- State the request handler works on: the `account` table, the messages acknowledged on the
response topic, and the number of handler runs so far, which selects the `Env` of the next
one. -/
structure World where
  table : List User
  responseLog : List ProducerMessage
  calls : Nat
  deriving DecidableEq, Repr

/-- The `switch err` of the handler in `src/cmd/signup-server/main.go`: on
`account.ErrUserNotFound` a user with a fresh id is created and the response succeeds, on `nil`
the response fails, any other error is fatal; so is a failed `ksuid.NewRandom` or `CreateUser`. -/
def lookupSwitch (e : Env) (req : SignupRequest) (w : World) : Outcome World SignupResponse :=
  let resp : SignupResponse :=
    { RequestID := req.ID, Username := req.Username, Success := false,
      Partition := 0, SequenceID := 0 }
  match (ByUsername e.lookupFault w.table req.Username).2 with
  | none => .ret { resp with Success := false } w
  | some err =>
    if err = ErrUserNotFound then
      match e.newID with
      | .error msg => .fatal ("signup: user id not created: " ++ msg) w
      | .ok userID =>
        match CreateUser e.createFault w.table { ID := userID, Username := req.Username } with
        | (some err', table') =>
          .fatal ("signup: failed to create user: " ++ err'.text) { w with table := table' }
        | (none, table') => .ret { resp with Success := true } { w with table := table' }
    else .fatal ("signup: failed to look up user: " ++ err.text) w

/-- The function passed to `signup.Requests` in `src/cmd/signup-server/main.go`: look the username
up, create the user when it is not found, write the response; every unexpected error is
`log.Fatalf`.  The lines written with `log.Printf` are not part of the state. -/
def handler (cfg : Config) (env : Nat → Env) (req : SignupRequest) (w : World) :
    Outcome World Unit :=
  let e := env w.calls
  match lookupSwitch e req { w with calls := w.calls + 1 } with
  | .fatal msg w' => .fatal msg w'
  | .ret resp w' =>
    match CreateResponse cfg e.sendFault resp w'.responseLog with
    | (some err, log') =>
      .fatal ("signup: failed to write a response: " ++ err.text) { w' with responseLog := log' }
    | (none, log') => .ret () { w' with responseLog := log' }

/-- The handler applied to requests in log order, which is what `Requests` does with the requests
it decodes: a fatal error ends the run. -/
def processRequests (cfg : Config) (env : Nat → Env) (reqs : List SignupRequest) (w : World) :
    Outcome World Unit :=
  forEach (handler cfg env) reqs w

/-- Function `main` of `src/cmd/signup-server/main.go` from `signup.Requests` on: the error
`Requests` returns is fatal too. -/
def signupServer (cfg : Config) (env : Nat → Env) (openFault : Option String)
    (msgs : List ConsumerMessage) (w : World) : Outcome World Unit :=
  match Requests openFault msgs (handler cfg env) w with
  | .fatal msg w' => .fatal msg w'
  | .ret (some err) w' => .fatal ("signup: failed to read signup requests: " ++ err.text) w'
  | .ret none w' => .ret () w'

/-- Responses that can be read back from the payloads of a list of produced messages. -/
def responsesIn (log : List ProducerMessage) : List SignupResponse :=
  log.filterMap (fun m => (jsonUnmarshalResponse m.Value).toOption)

/-- Messages appended to the response log between world `w` and a later world `w'`. -/
def appended (w w' : World) : List ProducerMessage :=
  w'.responseLog.drop w.responseLog.length

/-- Responses that a run gives to requests in order when `names` are the usernames taken before
it: a request succeeds when its username is not among the names taken so far. -/
def answers (names : List String) : List SignupRequest → List SignupResponse
  | [] => []
  | r :: rs =>
    ⟨r.ID, r.Username, !names.contains r.Username, 0, 0⟩ :: answers (r.Username :: names) rs

/-- Response a request gets when its username is already taken. -/
def rejected (r : SignupRequest) : SignupResponse := ⟨r.ID, r.Username, false, 0, 0⟩

/-- Response a request gets when it claims its username. -/
def accepted (r : SignupRequest) : SignupResponse := ⟨r.ID, r.Username, true, 0, 0⟩

/-- Responses for one username in a run in which the first request for a free username is
accepted and every later one rejected. -/
def firstWins : List SignupRequest → List SignupResponse
  | [] => []
  | first :: later => accepted first :: later.map rejected

/-- An outside world in which the database connection is lost at every lookup. -/
def lostConnectionEnv : Nat → Env :=
  fun n => { lookupFault := some "connection reset by peer", newID := .ok ("id" ++ toString n),
             createFault := none, sendFault := none }

/-- An outside world without faults, whose random source gives the ids `id0`, `id1`, ... -/
def quietEnv : Nat → Env :=
  fun n => { lookupFault := none, newID := .ok ("id" ++ toString n), createFault := none,
             sendFault := none }

/-! ## Command `signup-ctl` -/

/-- Operand of a formatting verb. -/
inductive Arg where
  | int (i : Int)
  | str (s : String)
  deriving DecidableEq, Repr

/-- One operand under one verb of `fmt.Printf`: `%d` prints an integer in decimal, `%s` prints a
string as it is; a verb that does not fit its operand prints the bad-verb form. -/
def formatArg (verb : Char) (a : Arg) : List Char :=
  match a with
  | Arg.int i =>
    if verb = 'd' then (toString i).toList
    else "%!".toList ++ verb :: "(int=".toList ++ (toString i).toList ++ ")".toList
  | Arg.str s =>
    if verb = 's' then s.toList
    else "%!".toList ++ verb :: "(string=".toList ++ s.toList ++ ")".toList

/-- Function `fmt.Sprintf` for formats made of text, `%%` and the verbs `%d` and `%s`, with no
more operands than verbs. -/
def Sprintf : List Char → List Arg → List Char
  | [], _ => []
  | c :: rest, args =>
    if c = '%' then
      match rest, args with
      | [], _ => "%!(NOVERB)".toList
      | v :: rest', [] =>
        if v = '%' then '%' :: Sprintf rest' []
        else "%!".toList ++ v :: "(MISSING)".toList ++ Sprintf rest' []
      | v :: rest', a :: args' =>
        if v = '%' then '%' :: Sprintf rest' (a :: args')
        else formatArg v a ++ Sprintf rest' args'
    else c :: Sprintf rest args

/-- The variable `c` of the callback of `printResponses`: the mark printed for a response. -/
def successMarker (success : Bool) : String :=
  if success then "✅" else "❌"

/-- The callback of `printResponses` in `src/cmd/signup-ctl/main.go`: the text one response adds
to the standard output. -/
def printResponse (resp : SignupResponse) : String :=
  let c : String := successMarker resp.Success
  String.mk (Sprintf "%d:%d %s %s %s\n".toList
    [Arg.int resp.Partition, Arg.int resp.SequenceID, Arg.str resp.RequestID,
      Arg.str resp.Username, Arg.str c])

/-- Function `printResponses` of `src/cmd/signup-ctl/main.go` on the merged stream of responses:
the state is the text written to the standard output; an error of `Responses` is fatal. -/
def printResponses (openFault : Option String) (merged : List ConsumerMessage) (out : String) :
    Outcome String Unit :=
  match Responses openFault merged (fun resp o => Outcome.ret () (o ++ printResponse resp)) out with
  | .fatal msg o => .fatal msg o
  | .ret (some err) o =>
    .fatal ("signup-ctl: failed to print signup responses: " ++ err.text) o
  | .ret none o => .ret () o

/-- What the outside world does during one turn of the loop of `signup-ctl`: the result of
`ksuid.NewRandom` and the fault of the send (`none` for no fault). -/
structure CtlEnv where
  newID : Except String String
  sendFault : Option String

/-- State of the loop of `signup-ctl`: the lines the goroutine of `userInput` has still to send
on its channel, in the order in which the scanner yields them (none left: the channel is closed),
the messages acknowledged on the request topic, and the number of turns so far, which selects the
`CtlEnv` of the next one. -/
structure CtlState where
  pending : List String
  requestLog : List ProducerMessage
  turns : Nat
  deriving DecidableEq, Repr

/-- Function `userInput` of `src/cmd/signup-ctl/main.go`: the channel holds the lines of the
input, one `input.Text()` per `input.Scan()`, and is closed after the last one.  The scanner is
outside the repository; `lines` are the lines as it yields them. -/
def userInput (lines : List String) : List String := lines

/-- The receive `username := <-in`: the next line, or the zero value once the channel is
closed. -/
def receive : List String → String × List String
  | [] => ("", [])
  | line :: rest => (line, rest)

/-- One turn of the `for`/`select` loop of `main` in `src/cmd/signup-ctl/main.go` while the
context is not cancelled: receive a username; skip it when it is blank; skip it when no
identifier can be made; otherwise create the request, and exit the process when that fails. -/
def ctlTurn (cfg : Config) (env : Nat → CtlEnv) (s : CtlState) : Outcome CtlState Unit :=
  let e := env s.turns
  let received := receive s.pending
  let s₁ : CtlState := { s with pending := received.2, turns := s.turns + 1 }
  if received.1 = "" then .ret () s₁
  else
    match e.newID with
    | .error _ => .ret () s₁
    | .ok requestID =>
      match CreateRequest cfg e.sendFault
          { ID := requestID, Username := received.1, Partition := 0, SequenceID := 0 }
          s₁.requestLog with
      | (some err, log') =>
        .fatal ("signup-ctl: failed to send signup request: " ++ err.text)
          { s₁ with requestLog := log' }
      | (none, log') => .ret () { s₁ with requestLog := log' }

/-- The first `n` turns of the loop of `signup-ctl`, which goes on until the context is cancelled
or the process exits. -/
def ctlLoop (cfg : Config) (env : Nat → CtlEnv) : Nat → CtlState → Outcome CtlState Unit
  | 0, s => .ret () s
  | n + 1, s =>
    match ctlTurn cfg env s with
    | .ret _ s' => ctlLoop cfg env n s'
    | .fatal msg s' => .fatal msg s'

/-- Requests that can be read back from the payloads of a list of produced messages. -/
def requestsIn (log : List ProducerMessage) : List SignupRequest :=
  log.filterMap (fun m => (jsonUnmarshalRequest m.Value).toOption)

/-- An outside world of `signup-ctl` without faults, whose random source gives `k0`, `k1`, ... -/
def quietCtlEnv : Nat → CtlEnv :=
  fun n => { newID := .ok ("k" ++ toString n), sendFault := none }

/-- The line the specification describes for a response: partition and sequence number in decimal
with a colon between them, then the success marker, the request identifier and the username, each
after one space. -/
def specLine (resp : SignupResponse) : String :=
  toString resp.Partition ++ ":" ++ toString resp.SequenceID ++ " " ++ successMarker resp.Success
    ++ " " ++ resp.RequestID ++ " " ++ resp.Username

/-! ## The JSON encoding can be read back -/

theorem hexVal_hexDigit : ∀ n, n < 16 → hexVal (hexDigit n) = some n := by
  decide

theorem char_range (c : Char) : c.toNat < 0xD800 ∨ (0xDFFF < c.toNat ∧ c.toNat < 0x110000) :=
  c.valid

theorem decodeRune_encodeRune (c : Char) (rest : List Nat) :
    decodeRune (encodeRune c ++ rest) = (c.toNat, (encodeRune c).length) := by
  have hc := char_range c
  unfold encodeRune
  split_ifs with h1 h2 h3
  · simp [decodeRune, h1]
  · have a1 : ¬ (0xC0 + c.toNat / 0x40 < 0x80) := by omega
    have a2 : ¬ (0xC0 + c.toNat / 0x40 < 0xC2 ∨ 0xF4 < 0xC0 + c.toNat / 0x40) := by omega
    have a3 : acceptLo (0xC0 + c.toNat / 0x40) = 0x80 := by
      unfold acceptLo; rw [if_neg (by omega), if_neg (by omega)]
    have a4 : acceptHi (0xC0 + c.toNat / 0x40) = 0xBF := by
      unfold acceptHi; rw [if_neg (by omega), if_neg (by omega)]
    have a5 : ¬ (0x80 + c.toNat % 0x40 < 0x80 ∨ 0xBF < 0x80 + c.toNat % 0x40) := by omega
    have a6 : 0xC0 + c.toNat / 0x40 < 0xE0 := by omega
    simp only [List.cons_append, List.nil_append, decodeRune, if_neg a1, if_neg a2, a3, a4,
      if_neg a5, if_pos a6, List.length_cons, List.length_nil]
    refine Prod.ext ?_ rfl
    show (0xC0 + c.toNat / 0x40) % 0x20 * 0x40 + (0x80 + c.toNat % 0x40) % 0x40 = c.toNat
    omega
  · have a1 : ¬ (0xE0 + c.toNat / 0x1000 < 0x80) := by omega
    have a2 : ¬ (0xE0 + c.toNat / 0x1000 < 0xC2 ∨ 0xF4 < 0xE0 + c.toNat / 0x1000) := by omega
    have a3 : ¬ (0x80 + c.toNat / 0x40 % 0x40 < acceptLo (0xE0 + c.toNat / 0x1000)
        ∨ acceptHi (0xE0 + c.toNat / 0x1000) < 0x80 + c.toNat / 0x40 % 0x40) := by
      unfold acceptLo acceptHi
      split_ifs <;> omega
    have a5 : ¬ (0x80 + c.toNat % 0x40 < 0x80 ∨ 0xBF < 0x80 + c.toNat % 0x40) := by omega
    have a6 : ¬ (0xE0 + c.toNat / 0x1000 < 0xE0) := by omega
    have a7 : 0xE0 + c.toNat / 0x1000 < 0xF0 := by omega
    simp only [List.cons_append, List.nil_append, decodeRune, if_neg a1, if_neg a2, if_neg a3,
      if_neg a5, if_neg a6, if_pos a7, List.length_cons, List.length_nil]
    refine Prod.ext ?_ rfl
    show (0xE0 + c.toNat / 0x1000) % 0x10 * 0x1000 + (0x80 + c.toNat / 0x40 % 0x40) % 0x40 * 0x40
      + (0x80 + c.toNat % 0x40) % 0x40 = c.toNat
    omega
  · have a1 : ¬ (0xF0 + c.toNat / 0x40000 < 0x80) := by omega
    have a2 : ¬ (0xF0 + c.toNat / 0x40000 < 0xC2 ∨ 0xF4 < 0xF0 + c.toNat / 0x40000) := by omega
    have a3 : ¬ (0x80 + c.toNat / 0x1000 % 0x40 < acceptLo (0xF0 + c.toNat / 0x40000)
        ∨ acceptHi (0xF0 + c.toNat / 0x40000) < 0x80 + c.toNat / 0x1000 % 0x40) := by
      unfold acceptLo acceptHi
      split_ifs <;> omega
    have a4 : ¬ (0x80 + c.toNat / 0x40 % 0x40 < 0x80 ∨ 0xBF < 0x80 + c.toNat / 0x40 % 0x40) := by
      omega
    have a5 : ¬ (0x80 + c.toNat % 0x40 < 0x80 ∨ 0xBF < 0x80 + c.toNat % 0x40) := by omega
    have a6 : ¬ (0xF0 + c.toNat / 0x40000 < 0xE0) := by omega
    have a7 : ¬ (0xF0 + c.toNat / 0x40000 < 0xF0) := by omega
    simp only [List.cons_append, List.nil_append, decodeRune, if_neg a1, if_neg a2, if_neg a3,
      if_neg a4, if_neg a5, if_neg a6, if_neg a7, List.length_cons, List.length_nil]
    refine Prod.ext ?_ rfl
    show (0xF0 + c.toNat / 0x40000) % 8 * 0x40000 + (0x80 + c.toNat / 0x1000 % 0x40) % 0x40 * 0x1000
      + (0x80 + c.toNat / 0x40 % 0x40) % 0x40 * 0x40 + (0x80 + c.toNat % 0x40) % 0x40 = c.toNat
    omega

theorem appendStringAux_skip (l rest : List Nat) :
    appendStringAux l.length (l ++ rest) = appendStringAux 0 rest := by
  induction l with
  | nil => rfl
  | cons a l ih => simpa [appendStringAux] using ih

theorem lexAux_skip (l tail : List Nat) :
    lexAux (afterRune (l.length + 1)) (l ++ tail) = lexAux (.plain none) tail := by
  induction l with
  | nil => simp [afterRune]
  | cons a l ih =>
    have h : afterRune ((a :: l).length + 1) = .skip (l.length + 1) := by
      simp [afterRune]
    rw [h, List.cons_append, lexAux]
    exact ih

theorem encodeRune_cons (c : Char) (h : ¬ c.toNat < 0x80) :
    ∃ b l, encodeRune c = b :: l ∧ 0x80 ≤ b ∧ b ≠ 0x22 ∧ b ≠ 0x5C ∧ 1 ≤ l.length := by
  unfold encodeRune
  split_ifs with h2 h3
  · exact ⟨_, _, rfl, by omega, by omega, by omega, by simp⟩
  · exact ⟨_, _, rfl, by omega, by omega, by omega, by simp⟩
  · exact ⟨_, _, rfl, by omega, by omega, by omega, by simp⟩

theorem lexAux_char (c : Char) (rest tail : List Nat) :
    lexAux (.plain none) (appendStringAux 0 (encodeRune c ++ rest) ++ tail)
      = pushChar c (lexAux (.plain none) (appendStringAux 0 rest ++ tail)) := by
  by_cases h1 : c.toNat < 0x80
  · have e : encodeRune c = [c.toNat] := by simp [encodeRune, h1]
    rw [e]
    simp only [List.cons_append, List.nil_append, appendStringAux, if_pos h1]
    have hc : Char.ofNat c.toNat = c := by simp
    generalize c.toNat = b at h1 hc ⊢
    subst hc
    split_ifs with g1 g2 g3 g4 g5 g6 g7
    · obtain ⟨g0, g1, g2, -⟩ := g1
      have g3 : ¬ b < 0x20 := by omega
      simp at g1 g2
      simp [lexAux, flushPending, g1, g2, g3, h1]
    · rcases g2 with rfl | rfl <;> simp [lexAux, flushPending, unescapeLetter]
    · subst g3; simp [lexAux, flushPending, unescapeLetter]
    · subst g4; simp [lexAux, flushPending, unescapeLetter]
    · subst g5; simp [lexAux, flushPending, unescapeLetter]
    · subst g6; simp [lexAux, flushPending, unescapeLetter]
    · subst g7; simp [lexAux, flushPending, unescapeLetter]
    · have hn : b < 64 := by
        simp at g1 g2
        omega
      have hd1 := hexVal_hexDigit (b / 16) (by omega)
      have hd2 := hexVal_hexDigit (b % 16) (by omega)
      have h0 : hexVal 48 = some 0 := by decide
      simp only [List.cons_append, List.nil_append, lexAux]
      simp [hd1, hd2, h0, flushPending]
      have e : b / 16 * 16 + b % 16 = b := by omega
      rw [e, if_neg (by omega), if_neg (by omega)]
  · obtain ⟨b, l, he, hb, hq, hbs, hl⟩ := encodeRune_cons c h1
    have hc : Char.ofNat c.toNat = c := by simp
    have hd := decodeRune_encodeRune c rest
    have hd' := decodeRune_encodeRune c (appendStringAux 0 rest ++ tail)
    rw [he] at hd hd'
    simp only [List.cons_append, List.length_cons] at hd hd'
    have hb' : ¬ b < 0x80 := by omega
    have hs := appendStringAux_skip l rest
    have hfffd : ¬ (c.toNat = 0xFFFD ∧ l.length + 1 = 1) := by omega
    rw [he]
    simp only [List.cons_append, appendStringAux, if_neg hb', List.append_eq, hd, if_neg hfffd,
      Nat.add_sub_cancel, hs]
    split_ifs with h2
    · have hd2 := hexVal_hexDigit (c.toNat % 16) (by omega)
      have h0 : hexVal 48 = some 0 := by decide
      have h2' : hexVal 50 = some 2 := by decide
      simp only [ascii, List.cons_append, List.nil_append, lexAux]
      simp [hd2, h0, h2', flushPending, lexAux]
      have e : 8224 + c.toNat % 16 = c.toNat := by omega
      rw [e, if_neg (by omega), if_neg (by omega), hc]
    · have ht : List.take (l.length + 1) (b :: (l ++ rest)) = b :: l := by simp
      rw [ht]
      have h3 : ¬ b = '"'.toNat := hq
      have h4 : ¬ b = '\\'.toNat := hbs
      have h5 : ¬ b < 0x20 := by omega
      simp only [List.cons_append, List.append_assoc, lexAux, if_neg h3, if_neg h4, if_neg h5,
        if_neg hb', flushPending]
      simp only [List.append_eq, List.append_assoc, hd', lexAux_skip, hc]

theorem pushChar_emit (c : Char) (s : List Char) (r : Option (List Token)) :
    pushChar c (emit (some (.str s)) r) = emit (some (.str (c :: s))) r := by
  cases r <;> rfl

theorem lexAux_body (s : List Char) (tail : List Nat) :
    lexAux (.plain none) (appendStringAux 0 (s.flatMap encodeRune) ++ tail)
      = emit (some (.str s)) (lexAux .start tail) := by
  induction s with
  | nil => simp [appendStringAux, lexAux, flushPending]
  | cons c s ih => rw [List.flatMap_cons, lexAux_char, ih, pushChar_emit]

theorem lexAux_string (s : String) (tail : List Nat) :
    lexAux .start (appendString (utf8 s) ++ tail)
      = emit (some (.str s.toList)) (lexAux .start tail) := by
  have h : beginToken '"'.toNat = some (none, .plain none) := by decide
  simp only [appendString, utf8, List.cons_append, lexAux, h, List.append_eq, lexAux_body, emit]

theorem emit_some (t : Token) (ts : List Token) : emit (some t) (some ts) = some (t :: ts) :=
  rfl

theorem lex_request (id name : String) :
    lex (marshalRequest (utf8 id) (utf8 name))
      = some [.lbrace, .str "id".toList, .colon, .str id.toList, .comma,
          .str "username".toList, .colon, .str name.toList, .rbrace] := by
  have h1 : ∀ X, lexAux .start (ascii "\x7b\"id\":" ++ X)
      = emit (some .lbrace) (emit (some (.str "id".toList))
          (emit (some .colon) (lexAux .start X))) := by
    intro X
    simp [ascii, lexAux, beginToken, isSpace, isDigit, flushPending, pushChar_emit]
    rfl
  have h2 : ∀ X, lexAux .start (ascii ",\"username\":" ++ X)
      = emit (some .comma) (emit (some (.str "username".toList))
          (emit (some .colon) (lexAux .start X))) := by
    intro X
    simp [ascii, lexAux, beginToken, isSpace, isDigit, flushPending, pushChar_emit]
    rfl
  have h3 : lexAux .start (ascii "\x7d") = some [.rbrace] := by decide
  simp only [lex, marshalRequest, List.append_assoc, h1, h2, h3, lexAux_string, emit_some]

theorem lex_response (id name : String) (b : Bool) :
    lex (jsonMarshalResponse ⟨id, name, b, 0, 0⟩)
      = some [.lbrace, .str "request_id".toList, .colon, .str id.toList, .comma,
          .str "username".toList, .colon, .str name.toList, .comma,
          .str "success".toList, .colon, if b then .tru else .fls, .rbrace] := by
  have h1 : ∀ X, lexAux .start (ascii "\x7b\"request_id\":" ++ X)
      = emit (some .lbrace) (emit (some (.str "request_id".toList))
          (emit (some .colon) (lexAux .start X))) := by
    intro X
    simp [ascii, lexAux, beginToken, isSpace, isDigit, flushPending, pushChar_emit]
    rfl
  have h2 : ∀ X, lexAux .start (ascii ",\"username\":" ++ X)
      = emit (some .comma) (emit (some (.str "username".toList))
          (emit (some .colon) (lexAux .start X))) := by
    intro X
    simp [ascii, lexAux, beginToken, isSpace, isDigit, flushPending, pushChar_emit]
    rfl
  have h3 : ∀ X, lexAux .start (ascii ",\"success\":" ++ X)
      = emit (some .comma) (emit (some (.str "success".toList))
          (emit (some .colon) (lexAux .start X))) := by
    intro X
    simp [ascii, lexAux, beginToken, isSpace, isDigit, flushPending, pushChar_emit]
    rfl
  have h4 : lexAux .start (ascii (if b then "true" else "false") ++ ascii "\x7d")
      = some [if b then .tru else .fls, .rbrace] := by
    cases b <;> decide
  simp only [lex, jsonMarshalResponse, List.append_assoc, h1, h2, h3, h4, lexAux_string,
    emit_some]

theorem unmarshal_marshal_request (r : SignupRequest) :
    jsonUnmarshalRequest (jsonMarshalRequest r)
      = .ok { ID := r.ID, Username := r.Username, Partition := 0, SequenceID := 0 } := by
  have h := lex_request r.ID r.Username
  simp only [jsonUnmarshalRequest, jsonMarshalRequest, checkValid, h]
  rfl

theorem unmarshal_marshal_response (r : SignupResponse) :
    jsonUnmarshalResponse (jsonMarshalResponse r)
      = .ok { RequestID := r.RequestID, Username := r.Username, Success := r.Success,
              Partition := 0, SequenceID := 0 } := by
  have h := lex_response r.RequestID r.Username r.Success
  have e : jsonMarshalResponse r = jsonMarshalResponse ⟨r.RequestID, r.Username, r.Success, 0, 0⟩ :=
    rfl
  rw [e]
  simp only [jsonUnmarshalResponse, checkValid, h]
  cases r.Success <;> rfl

/-! ## One run of the handler, and a run over a list of requests -/

theorem ByUsername_err (fault : Option String) (table : List User) (u : String) :
    (ByUsername fault table u).2 =
      match fault with
      | some msg => some (Error.pg msg)
      | none => if taken table u then none else some ErrUserNotFound := by
  cases fault with
  | some msg => simp [ByUsername]
  | none =>
    simp only [ByUsername, queryByUsername, taken]
    cases h : table.find? (fun row => row.Username == u) with
    | none =>
      have : table.any (fun row => row.Username == u) = false := by
        rw [List.find?_eq_none] at h
        simpa [List.any_eq_false] using h
      simp [this]
    | some row =>
      have : table.any (fun row => row.Username == u) = true := by
        have h1 := List.find?_some h
        have h2 := List.mem_of_find?_eq_some h
        exact List.any_eq_true.mpr ⟨row, h2, h1⟩
      simp [this]

theorem handler_ret (cfg : Config) (env : Nat → Env) (r : SignupRequest) (w w' : World)
    (h : handler cfg env r w = .ret () w') :
    w'.calls = w.calls + 1 ∧
    w'.responseLog = w.responseLog ++
      [responseMessage cfg ⟨r.ID, r.Username, !taken w.table r.Username, 0, 0⟩] ∧
    (if taken w.table r.Username then w'.table = w.table
      else ∃ id, w'.table = w.table ++ [{ ID := id, Username := r.Username }]) := by
  unfold handler at h
  simp only [lookupSwitch, ByUsername_err] at h
  cases hl : (env w.calls).lookupFault with
  | some msg =>
    simp [hl, ErrUserNotFound] at h
  | none =>
    simp only [hl] at h
    by_cases ht : taken w.table r.Username = true
    · simp [ht, CreateResponse, SendMessage] at h
      cases hs : (env w.calls).sendFault with
      | some m => simp [hs] at h
      | none =>
        simp [hs] at h
        subst h
        simp [ht]
    · simp only [ht] at h
      simp only [Bool.false_eq_true, if_false, if_true] at h
      cases hid : (env w.calls).newID with
      | error m => simp [hid] at h
      | ok id =>
        simp only [hid, CreateUser] at h
        cases hc : (env w.calls).createFault with
        | some m => simp [hc] at h
        | none =>
          simp only [hc] at h
          cases he : execCreate w.table { ID := id, Username := r.Username } with
          | error e => simp [he] at h
          | ok t =>
            simp only [he, CreateResponse, SendMessage] at h
            cases hs : (env w.calls).sendFault with
            | some m => simp [hs] at h
            | none =>
              simp [hs] at h
              subst h
              have ht' : t = w.table ++ [{ ID := id, Username := r.Username }] := by
                unfold execCreate at he
                split_ifs at he
                simpa using he.symm
              simp [ht, ht']


theorem handler_fatal (cfg : Config) (env : Nat → Env) (r : SignupRequest) (w w' : World)
    (msg : String) (h : handler cfg env r w = .fatal msg w') :
    w'.calls = w.calls + 1 ∧ w'.responseLog = w.responseLog ∧
    (w'.table = w.table ∨ (taken w.table r.Username = false ∧
      ∃ id, w'.table = w.table ++ [{ ID := id, Username := r.Username }])) := by
  unfold handler at h
  simp only [lookupSwitch, ByUsername_err] at h
  cases hl : (env w.calls).lookupFault with
  | some m =>
    simp [hl, ErrUserNotFound] at h
    obtain ⟨-, rfl⟩ := h
    simp
  | none =>
    simp only [hl] at h
    by_cases ht : taken w.table r.Username = true
    · simp [ht, CreateResponse, SendMessage] at h
      cases hs : (env w.calls).sendFault with
      | some m =>
        simp [hs] at h
        obtain ⟨-, rfl⟩ := h
        simp
      | none => simp [hs] at h
    · simp only [ht] at h
      simp only [Bool.false_eq_true, if_false, if_true] at h
      cases hid : (env w.calls).newID with
      | error m =>
        simp [hid] at h
        obtain ⟨-, rfl⟩ := h
        simp
      | ok id =>
        simp only [hid, CreateUser] at h
        cases hc : (env w.calls).createFault with
        | some m =>
          simp [hc] at h
          obtain ⟨-, rfl⟩ := h
          simp
        | none =>
          simp only [hc] at h
          cases he : execCreate w.table { ID := id, Username := r.Username } with
          | error e =>
            simp [he] at h
            obtain ⟨-, rfl⟩ := h
            simp
          | ok t =>
            simp only [he, CreateResponse, SendMessage] at h
            cases hs : (env w.calls).sendFault with
            | some m =>
              simp [hs] at h
              obtain ⟨-, rfl⟩ := h
              have ht' : t = w.table ++ [{ ID := id, Username := r.Username }] := by
                unfold execCreate at he
                split_ifs at he
                simpa using he.symm
              simp [ht, ht']
            | none => simp [hs] at h

theorem taken_eq_contains (table : List User) (u : String) :
    taken table u = (table.map (fun row => row.Username)).contains u := by
  induction table with
  | nil => simp [taken]
  | cons row rows ih =>
    simp only [taken, List.any_cons, List.map_cons, List.contains_cons] at ih ⊢
    rw [ih]
    rw [BEq.comm]

theorem answers_congr (n1 n2 : List String) (rs : List SignupRequest)
    (h : ∀ x, n1.contains x = n2.contains x) : answers n1 rs = answers n2 rs := by
  induction rs generalizing n1 n2 with
  | nil => rfl
  | cons r rs ih =>
    simp only [answers, h r.Username]
    congr 1
    apply ih
    intro x
    simp only [List.contains_cons, h x]


theorem responsesIn_append (a b : List ProducerMessage) :
    responsesIn (a ++ b) = responsesIn a ++ responsesIn b := by
  simp [responsesIn, List.filterMap_append]

theorem responsesIn_answers (cfg : Config) (names : List String) (rs : List SignupRequest) :
    responsesIn ((answers names rs).map (responseMessage cfg)) = answers names rs := by
  induction rs generalizing names with
  | nil => rfl
  | cons r rs ih =>
    simp only [answers, List.map_cons, responsesIn, List.filterMap_cons, responseMessage,
      unmarshal_marshal_response, Except.toOption]
    simp only [responsesIn, Except.toOption] at ih
    rw [ih]

/-- Shape of every run: the response log grows by the answers to the first `k` requests, and a
run that returns has answered them all. -/
theorem processRequests_log (cfg : Config) (env : Nat → Env) (reqs : List SignupRequest)
    (w : World) :
    ∃ k, k ≤ reqs.length ∧
      (processRequests cfg env reqs w).state.responseLog = w.responseLog ++
        (answers (w.table.map (fun row => row.Username)) (reqs.take k)).map
          (responseMessage cfg) ∧
      ((processRequests cfg env reqs w).returned = true → k = reqs.length) := by
  induction reqs generalizing w with
  | nil => exact ⟨0, le_refl _, by simp [processRequests, forEach, Outcome.state, answers], fun _ => rfl⟩
  | cons r rs ih =>
    unfold processRequests at ih ⊢
    simp only [forEach]
    cases h : handler cfg env r w with
    | fatal msg w1 =>
      obtain ⟨-, hlog, -⟩ := handler_fatal cfg env r w w1 msg h
      exact ⟨0, Nat.zero_le _, by simp [Outcome.state, hlog, answers], by simp [Outcome.returned]⟩
    | ret a w1 =>
      obtain ⟨-, hlog, htab⟩ := handler_ret cfg env r w w1 h
      obtain ⟨k, hk, hlog', hret⟩ := ih w1
      refine ⟨k + 1, by simpa using hk, ?_, fun hr => by simpa using hret hr⟩
      simp only [hlog', hlog, List.take_succ_cons, answers, List.map_cons, List.append_assoc,
        List.singleton_append]
      rw [taken_eq_contains]
      congr 3
      apply answers_congr
      intro x
      by_cases ht : taken w.table r.Username = true
      · rw [if_pos ht] at htab
        rw [htab]
        rw [taken_eq_contains] at ht
        by_cases hx : x = r.Username
        · subst hx; simpa using ht
        · simp [List.contains_cons, hx]
      · rw [if_neg ht] at htab
        obtain ⟨id, htab⟩ := htab
        rw [htab]
        simp [List.contains_cons, List.contains_eq_any_beq, Bool.or_comm]

/-! ## The uniqueness processor -/

theorem answers_taken (u : String) (names : List String) (rs : List SignupRequest)
    (h : names.contains u = true) :
    (answers names rs).filter (fun r => r.Username == u)
      = (rs.filter (fun r => r.Username == u)).map rejected := by
  induction rs generalizing names with
  | nil => rfl
  | cons r rs ih =>
    have h' : (r.Username :: names).contains u = true := by
      simp only [List.contains_cons, h, Bool.or_true]
    simp only [answers, List.filter_cons]
    by_cases hu : (r.Username == u) = true
    · have e : r.Username = u := by simpa using hu
      subst e
      simp only [beq_self_eq_true, if_true, List.map_cons, ih _ h', rejected, h, Bool.not_true]
    · simp only [hu, if_false, ih _ h']
      simp

theorem answers_free (u : String) (names : List String) (rs : List SignupRequest)
    (h : names.contains u = false) :
    (answers names rs).filter (fun r => r.Username == u)
      = firstWins (rs.filter (fun r => r.Username == u)) := by
  induction rs generalizing names with
  | nil => rfl
  | cons r rs ih =>
    simp only [answers, List.filter_cons]
    by_cases hu : (r.Username == u) = true
    · have e : r.Username = u := by simpa using hu
      subst e
      have h' : (r.Username :: names).contains r.Username = true := by
        simp [List.contains_cons]
      simp only [beq_self_eq_true, if_true, firstWins, answers_taken _ _ rs h', accepted, h,
        Bool.not_false]
    · have h' : (r.Username :: names).contains u = false := by
        have : ¬ u = r.Username := fun q => hu (by simp [q])
        simp only [List.contains_cons, h, Bool.or_false]
        simpa using this
      simp only [hu, if_false, ih _ h']
      simp

theorem appended_of_log (w w' : World) (xs : List ProducerMessage)
    (h : w'.responseLog = w.responseLog ++ xs) : appended w w' = xs := by
  simp [appended, h]

theorem firstWins_success (rs : List SignupRequest) :
    ((firstWins rs).filter (fun r => r.Success)).length ≤ 1 := by
  cases rs with
  | nil => simp [firstWins]
  | cons r rs =>
    have : (rs.map rejected).filter (fun r => r.Success) = [] := by
      simp [List.filter_eq_nil_iff, rejected]
    simp [firstWins, accepted, List.filter_cons, this]

theorem rejected_success (rs : List SignupRequest) :
    ((rs.map rejected).filter (fun r => r.Success)).length ≤ 1 := by
  have : (rs.map rejected).filter (fun r => r.Success) = [] := by
    simp [List.filter_eq_nil_iff, rejected]
  simp [this]

theorem consumeRequests_state {σ : Type} (unmarshal : List Nat → Except Error SignupRequest)
    (f : SignupRequest → σ → Outcome σ Unit) (msgs : List ConsumerMessage) (s : σ) :
    ∃ reqs, (consumeRequests unmarshal f msgs s).state = (forEach f reqs s).state := by
  induction msgs generalizing s with
  | nil => exact ⟨[], rfl⟩
  | cons m ms ih =>
    cases hd : unmarshal m.Value with
    | error e => exact ⟨[], by simp [consumeRequests, hd, forEach, Outcome.state]⟩
    | ok r =>
      cases hf : f { r with Partition := m.Partition, SequenceID := m.Offset } s with
      | fatal msg s' =>
        exact ⟨[{ r with Partition := m.Partition, SequenceID := m.Offset }],
          by simp [consumeRequests, hd, forEach, hf, Outcome.state]⟩
      | ret a s' =>
        obtain ⟨reqs, hreqs⟩ := ih s'
        exact ⟨{ r with Partition := m.Partition, SequenceID := m.Offset } :: reqs,
          by simp [consumeRequests, hd, forEach, hf, hreqs]⟩

theorem signupServer_state (cfg : Config) (env : Nat → Env) (openFault : Option String)
    (msgs : List ConsumerMessage) (w : World) :
    ∃ reqs, (signupServer cfg env openFault msgs w).state
      = (processRequests cfg env reqs w).state := by
  cases openFault with
  | some msg => exact ⟨[], rfl⟩
  | none =>
    obtain ⟨reqs, hreqs⟩ := consumeRequests_state jsonUnmarshalRequest (handler cfg env) msgs w
    refine ⟨reqs, ?_⟩
    unfold processRequests
    rw [← hreqs]
    unfold signupServer Requests RequestsWith
    cases consumeRequests jsonUnmarshalRequest (handler cfg env) msgs w with
    | fatal msg w' => rfl
    | ret err w' => cases err <;> rfl

theorem success_count (cfg : Config) (env : Nat → Env) (reqs : List SignupRequest) (w : World)
    (u : String) :
    ((responsesIn (appended w (processRequests cfg env reqs w).state)).filter
      (fun r => r.Username == u && r.Success)).length ≤ 1 := by
  obtain ⟨k, -, hlog, -⟩ := processRequests_log cfg env reqs w
  rw [appended_of_log _ _ _ hlog, responsesIn_answers]
  have hsplit : ∀ l : List SignupResponse,
      l.filter (fun r => r.Username == u && r.Success)
        = (l.filter (fun r => r.Username == u)).filter (fun r => r.Success) := by
    intro l
    rw [List.filter_filter]
    congr 1
    funext r
    exact Bool.and_comm _ _
  rw [hsplit]
  cases h : (w.table.map (fun row => row.Username)).contains u with
  | true => rw [answers_taken u _ _ h]; exact rejected_success _
  | false => rw [answers_free u _ _ h]; exact firstWins_success _

theorem appended_decodes (cfg : Config) (env : Nat → Env) (reqs : List SignupRequest)
    (w : World) :
    (responsesIn (appended w (processRequests cfg env reqs w).state)).length
      = (appended w (processRequests cfg env reqs w).state).length := by
  obtain ⟨k, -, hlog, -⟩ := processRequests_log cfg env reqs w
  rw [appended_of_log _ _ _ hlog, responsesIn_answers, List.length_map]

/-- C1. For every initial store and every list of requests handled in log order, and for every
username `u`, at most one of the responses the run emits for `u` has `Success = true` (the others
for `u` then have `Success = false`); every message the run appends is such a response.  This
holds for runs that end in a fatal error too, and so for every run of the server on every list of
delivered messages. -/
theorem at_most_one_success_per_username (cfg : Config) (env : Nat → Env) (w : World)
    (u : String) :
    (∀ reqs : List SignupRequest,
      ((responsesIn (appended w (processRequests cfg env reqs w).state)).filter
        (fun r => r.Username == u && r.Success)).length ≤ 1 ∧
      (responsesIn (appended w (processRequests cfg env reqs w).state)).length
        = (appended w (processRequests cfg env reqs w).state).length) ∧
    (∀ (openFault : Option String) (msgs : List ConsumerMessage),
      ((responsesIn (appended w (signupServer cfg env openFault msgs w).state)).filter
        (fun r => r.Username == u && r.Success)).length ≤ 1 ∧
      (responsesIn (appended w (signupServer cfg env openFault msgs w).state)).length
        = (appended w (signupServer cfg env openFault msgs w).state).length) := by
  refine ⟨fun reqs => ⟨success_count cfg env reqs w u, appended_decodes cfg env reqs w⟩,
    fun openFault msgs => ?_⟩
  obtain ⟨reqs, hreqs⟩ := signupServer_state cfg env openFault msgs w
  rw [hreqs]
  exact ⟨success_count cfg env reqs w u, appended_decodes cfg env reqs w⟩

theorem firstWins_prefix (xs ys : List SignupRequest) (h : xs <+: ys) :
    firstWins xs <+: firstWins ys := by
  obtain ⟨t, rfl⟩ := h
  cases xs with
  | nil => exact List.nil_prefix
  | cons x xs => exact ⟨t.map rejected, by simp [firstWins]⟩

theorem responses_for (cfg : Config) (env : Nat → Env) (reqs : List SignupRequest) (w : World)
    (u : String) :
    ∃ k, k ≤ reqs.length ∧
      ((processRequests cfg env reqs w).returned = true → k = reqs.length) ∧
      (responsesIn (appended w (processRequests cfg env reqs w).state)).filter
          (fun r => r.Username == u)
        = if taken w.table u then ((reqs.take k).filter (fun r => r.Username == u)).map rejected
          else firstWins ((reqs.take k).filter (fun r => r.Username == u)) := by
  obtain ⟨k, hk, hlog, hret⟩ := processRequests_log cfg env reqs w
  refine ⟨k, hk, hret, ?_⟩
  rw [appended_of_log _ _ _ hlog, responsesIn_answers, taken_eq_contains]
  cases h : (w.table.map (fun row => row.Username)).contains u with
  | true => simp only [if_true]; exact answers_taken u _ _ h
  | false => simpa using answers_free u _ _ h

/-- C2. Starting from a store that holds no user named `u`, the responses a run emits for `u`
are, in order, an acceptance of the first request for `u` followed by rejections of the later
requests for `u`, whatever requests for other usernames lie between them: the responses of any
run are an initial part of that list, and a run that does not end in a fatal error gives the
whole list. -/
theorem first_request_wins (cfg : Config) (env : Nat → Env) (reqs : List SignupRequest)
    (w : World) (u : String) (hfree : taken w.table u = false) :
    (responsesIn (appended w (processRequests cfg env reqs w).state)).filter
        (fun r => r.Username == u)
      <+: firstWins (reqs.filter (fun r => r.Username == u)) ∧
    ((processRequests cfg env reqs w).returned = true →
      (responsesIn (appended w (processRequests cfg env reqs w).state)).filter
          (fun r => r.Username == u)
        = firstWins (reqs.filter (fun r => r.Username == u))) := by
  obtain ⟨k, -, hret, hfor⟩ := responses_for cfg env reqs w u
  rw [hfor, hfree]
  simp only [Bool.false_eq_true, if_false]
  constructor
  · exact firstWins_prefix _ _ ((List.take_prefix k reqs).filter _)
  · intro h
    rw [hret h, List.take_length]

/-- Witness of C2: the requests "bob", "bob", "alice" on an empty store give `true`, `false`,
`true`. -/
theorem first_request_wins_witness :
    taken [] "bob" = false ∧
    (processRequests defaultConfig quietEnv
        [⟨"r1", "bob", 0, 0⟩, ⟨"r2", "bob", 0, 1⟩, ⟨"r3", "alice", 0, 2⟩]
        ⟨[], [], 0⟩).returned = true ∧
    (responsesIn (appended ⟨[], [], 0⟩ (processRequests defaultConfig quietEnv
        [⟨"r1", "bob", 0, 0⟩, ⟨"r2", "bob", 0, 1⟩, ⟨"r3", "alice", 0, 2⟩] ⟨[], [], 0⟩).state)).map
        (fun r => r.Success) = [true, false, true] ∧
    (responsesIn (appended ⟨[], [], 0⟩ (processRequests defaultConfig quietEnv
        [⟨"r1", "bob", 0, 0⟩, ⟨"r2", "bob", 0, 1⟩, ⟨"r3", "alice", 0, 2⟩] ⟨[], [], 0⟩).state)).filter
        (fun r => r.Username == "bob")
      = [⟨"r1", "bob", true, 0, 0⟩, ⟨"r2", "bob", false, 0, 0⟩] :=
  ⟨by decide, by decide, by decide,
    ((first_request_wins defaultConfig quietEnv
      [⟨"r1", "bob", 0, 0⟩, ⟨"r2", "bob", 0, 1⟩, ⟨"r3", "alice", 0, 2⟩] ⟨[], [], 0⟩ "bob"
      (by decide)).2 (by decide)).trans (by decide)⟩

theorem handler_appended (cfg : Config) (env : Nat → Env) (r : SignupRequest) (w w' : World)
    (h : handler cfg env r w = .ret () w') :
    appended w w' = [responseMessage cfg ⟨r.ID, r.Username, !taken w.table r.Username, 0, 0⟩] ∧
    responsesIn (appended w w') = [⟨r.ID, r.Username, !taken w.table r.Username, 0, 0⟩] := by
  obtain ⟨-, hlog, -⟩ := handler_ret cfg env r w w' h
  rw [appended_of_log _ _ _ hlog]
  refine ⟨rfl, ?_⟩
  simp [responsesIn, responseMessage, unmarshal_marshal_response, Except.toOption]

theorem handler_of_taken (cfg : Config) (env : Nat → Env) (r : SignupRequest) (w : World)
    (hl : (env w.calls).lookupFault = none) (ht : taken w.table r.Username = true) :
    handler cfg env r w
      = match (env w.calls).sendFault with
        | some m =>
          .fatal ("signup: failed to write a response: " ++ m) { w with calls := w.calls + 1 }
        | none =>
          .ret () { w with
            calls := w.calls + 1
            responseLog := w.responseLog ++
              [responseMessage cfg ⟨r.ID, r.Username, false, 0, 0⟩] } := by
  unfold handler
  simp only [lookupSwitch, ByUsername_err, hl, ht, if_true, CreateResponse, SendMessage]
  cases (env w.calls).sendFault <;> rfl

theorem lookupFault_of_ret (cfg : Config) (env : Nat → Env) (r : SignupRequest) (w w' : World)
    (h : handler cfg env r w = .ret () w') : (env w.calls).lookupFault = none := by
  cases hl : (env w.calls).lookupFault with
  | none => rfl
  | some m => simp [handler, lookupSwitch, ByUsername_err, hl, ErrUserNotFound] at h

/-- C3. When the handler gets through a request `r`, the one response it appends has
`Success = true` exactly when the table held no user named `r.Username` when `r` was handled.  In
that case a user named `r.Username` has been added to the table.  Otherwise the table is left as
it was and no insert is attempted: the handler does the same whatever the random source and the
insert would have done. -/
theorem success_iff_username_free (cfg : Config) (env : Nat → Env) (r : SignupRequest)
    (w w' : World) (h : handler cfg env r w = .ret () w') :
    ∃ resp, responsesIn (appended w w') = [resp] ∧
      (resp.Success = true ↔ taken w.table r.Username = false) ∧
      (resp.Success = true →
        (∃ id, w'.table = w.table ++ [{ ID := id, Username := r.Username }]) ∧
        taken w'.table r.Username = true) ∧
      (resp.Success = false →
        w'.table = w.table ∧
        ∀ env' : Nat → Env,
          (env' w.calls).lookupFault = (env w.calls).lookupFault →
          (env' w.calls).sendFault = (env w.calls).sendFault →
          handler cfg env' r w = .ret () w') := by
  obtain ⟨-, -, htab⟩ := handler_ret cfg env r w w' h
  refine ⟨_, (handler_appended cfg env r w w' h).2, ?_, ?_, ?_⟩
  · simp
  · intro hs
    have ht : taken w.table r.Username = false := by simpa using hs
    simp only [ht, Bool.false_eq_true, if_false] at htab
    obtain ⟨id, hid⟩ := htab
    exact ⟨⟨id, hid⟩, by simp [hid, taken]⟩
  · intro hs
    have ht : taken w.table r.Username = true := by simpa using hs
    refine ⟨by simpa [ht] using htab, fun env' hl' hs' => ?_⟩
    have hl := lookupFault_of_ret cfg env r w w' h
    rw [← h, handler_of_taken cfg env r w hl ht,
      handler_of_taken cfg env' r w (hl'.trans hl) ht, hs']

/-- Witness of C3: on an empty table the request of "bob" is accepted and "bob" is created. -/
theorem success_iff_username_free_witness :
    handler defaultConfig quietEnv ⟨"r1", "bob", 0, 0⟩ ⟨[], [], 0⟩
      = .ret () ⟨[⟨"id0", "bob"⟩], [responseMessage defaultConfig ⟨"r1", "bob", true, 0, 0⟩], 1⟩ ∧
    ∃ resp, responsesIn (appended ⟨[], [], 0⟩ ⟨[⟨"id0", "bob"⟩],
          [responseMessage defaultConfig ⟨"r1", "bob", true, 0, 0⟩], 1⟩) = [resp] ∧
      (resp.Success = true ↔ taken [] "bob" = false) ∧
      (resp.Success = true →
        (∃ id, [⟨"id0", "bob"⟩] = [] ++ [({ ID := id, Username := "bob" } : User)]) ∧
        taken [⟨"id0", "bob"⟩] "bob" = true) :=
  ⟨by decide,
    (success_iff_username_free defaultConfig quietEnv ⟨"r1", "bob", 0, 0⟩ ⟨[], [], 0⟩
      ⟨[⟨"id0", "bob"⟩], [responseMessage defaultConfig ⟨"r1", "bob", true, 0, 0⟩], 1⟩
      (by decide)).imp (fun _ h => ⟨h.1, h.2.1, h.2.2.1⟩)⟩

/-- C4. The decision for a username does not depend on the other usernames: two runs that both
get through their requests, from stores that agree on whether a user named `a` exists and over
request lists with the same requests for `a`, emit the same responses for `a`, and so the same
sequence of success values. -/
theorem decisions_independent (cfg : Config) (env₁ env₂ : Nat → Env)
    (reqs₁ reqs₂ : List SignupRequest) (w₁ w₂ : World) (a : String)
    (hstore : taken w₁.table a = taken w₂.table a)
    (hreqs : reqs₁.filter (fun r => r.Username == a) = reqs₂.filter (fun r => r.Username == a))
    (h₁ : (processRequests cfg env₁ reqs₁ w₁).returned = true)
    (h₂ : (processRequests cfg env₂ reqs₂ w₂).returned = true) :
    ((responsesIn (appended w₁ (processRequests cfg env₁ reqs₁ w₁).state)).filter
        (fun r => r.Username == a)).map (fun r => r.Success)
      = ((responsesIn (appended w₂ (processRequests cfg env₂ reqs₂ w₂).state)).filter
        (fun r => r.Username == a)).map (fun r => r.Success) := by
  obtain ⟨k₁, -, hret₁, hfor₁⟩ := responses_for cfg env₁ reqs₁ w₁ a
  obtain ⟨k₂, -, hret₂, hfor₂⟩ := responses_for cfg env₂ reqs₂ w₂ a
  rw [hfor₁, hfor₂, hret₁ h₁, hret₂ h₂, List.take_length, List.take_length, hstore, hreqs]

/-- Witness of C4: the two requests of "bob" get the same decisions whether "alice" asks between
them or "carol" before them, and whether or not "dave" is in the store. -/
theorem decisions_independent_witness :
    taken [] "bob" = taken [⟨"x", "dave"⟩] "bob" ∧
    ([⟨"r1", "bob", 0, 0⟩, ⟨"r2", "alice", 0, 1⟩, ⟨"r3", "bob", 0, 2⟩] : List SignupRequest).filter
        (fun r => r.Username == "bob")
      = ([⟨"r0", "carol", 0, 0⟩, ⟨"r1", "bob", 0, 0⟩, ⟨"r3", "bob", 0, 2⟩] :
          List SignupRequest).filter (fun r => r.Username == "bob") ∧
    (processRequests defaultConfig quietEnv
        [⟨"r1", "bob", 0, 0⟩, ⟨"r2", "alice", 0, 1⟩, ⟨"r3", "bob", 0, 2⟩]
        ⟨[], [], 0⟩).returned = true ∧
    (processRequests defaultConfig quietEnv
        [⟨"r0", "carol", 0, 0⟩, ⟨"r1", "bob", 0, 0⟩, ⟨"r3", "bob", 0, 2⟩]
        ⟨[⟨"x", "dave"⟩], [], 0⟩).returned = true ∧
    ((responsesIn (appended ⟨[], [], 0⟩ (processRequests defaultConfig quietEnv
        [⟨"r1", "bob", 0, 0⟩, ⟨"r2", "alice", 0, 1⟩, ⟨"r3", "bob", 0, 2⟩]
        ⟨[], [], 0⟩).state)).filter (fun r => r.Username == "bob")).map (fun r => r.Success)
      = ((responsesIn (appended ⟨[⟨"x", "dave"⟩], [], 0⟩ (processRequests defaultConfig quietEnv
        [⟨"r0", "carol", 0, 0⟩, ⟨"r1", "bob", 0, 0⟩, ⟨"r3", "bob", 0, 2⟩]
        ⟨[⟨"x", "dave"⟩], [], 0⟩).state)).filter (fun r => r.Username == "bob")).map
          (fun r => r.Success) :=
  ⟨by decide, by decide, by decide, by decide,
    decisions_independent defaultConfig quietEnv quietEnv
      [⟨"r1", "bob", 0, 0⟩, ⟨"r2", "alice", 0, 1⟩, ⟨"r3", "bob", 0, 2⟩]
      [⟨"r0", "carol", 0, 0⟩, ⟨"r1", "bob", 0, 0⟩, ⟨"r3", "bob", 0, 2⟩]
      ⟨[], [], 0⟩ ⟨[⟨"x", "dave"⟩], [], 0⟩ "bob" (by decide) (by decide) (by decide) (by decide)⟩

/-- C5. When `ByUsername` returns an error other than `ErrUserNotFound`, or when the user is not
found and `CreateUser` returns an error, the handler exits the process: no response is appended,
the table is left as it was, and neither the handler nor `Requests` goes on to a later
request. -/
theorem store_error_halts (cfg : Config) (env : Nat → Env) (r : SignupRequest)
    (rest : List SignupRequest) (w : World)
    (h : (∃ err, (ByUsername (env w.calls).lookupFault w.table r.Username).2 = some err ∧
            err ≠ ErrUserNotFound) ∨
         ((ByUsername (env w.calls).lookupFault w.table r.Username).2 = some ErrUserNotFound ∧
            ∃ id err, (env w.calls).newID = .ok id ∧
              (CreateUser (env w.calls).createFault w.table
                { ID := id, Username := r.Username }).1 = some err)) :
    ∃ msg,
      handler cfg env r w = .fatal msg { w with calls := w.calls + 1 } ∧
      processRequests cfg env (r :: rest) w = .fatal msg { w with calls := w.calls + 1 } ∧
      (∀ (m : ConsumerMessage) (ms : List ConsumerMessage) (r₀ : SignupRequest),
        jsonUnmarshalRequest m.Value = .ok r₀ →
        r = { r₀ with Partition := m.Partition, SequenceID := m.Offset } →
        Requests none (m :: ms) (handler cfg env) w
          = .fatal msg { w with calls := w.calls + 1 }) := by
  have key : ∃ msg, handler cfg env r w = .fatal msg { w with calls := w.calls + 1 } := by
    rcases h with ⟨err, he, hne⟩ | ⟨he, id, err, hid, hc⟩
    · refine ⟨"signup: failed to look up user: " ++ err.text, ?_⟩
      simp [handler, lookupSwitch, he, hne]
    · refine ⟨"signup: failed to create user: " ++ err.text, ?_⟩
      have hc2 : CreateUser (env w.calls).createFault w.table
          { ID := id, Username := r.Username } = (some err, w.table) := by
        unfold CreateUser at hc ⊢
        cases hf : (env w.calls).createFault with
        | some m => simp [hf] at hc ⊢; exact hc
        | none =>
          simp only [hf] at hc ⊢
          cases hx : execCreate w.table { ID := id, Username := r.Username } with
          | ok t => simp [hx] at hc
          | error e => simp [hx] at hc ⊢; exact hc
      simp [handler, lookupSwitch, he, hid, hc2]
  obtain ⟨msg, hm⟩ := key
  refine ⟨msg, hm, ?_, ?_⟩
  · simp [processRequests, forEach, hm]
  · intro m ms r₀ hdec hr
    subst hr
    simp [Requests, RequestsWith, consumeRequests, hdec, hm]

/-- Witness of C5: a lost connection at the lookup, and an id that is already a primary key at
the insert, both end the run at the first request, with table and response log as they were. -/
theorem store_error_halts_witness :
    ((ByUsername (lostConnectionEnv 0).lookupFault [] "bob").2
        = some (Error.pg "connection reset by peer") ∧
      Error.pg "connection reset by peer" ≠ ErrUserNotFound ∧
      ∃ msg, processRequests defaultConfig lostConnectionEnv
          [⟨"r1", "bob", 0, 0⟩, ⟨"r2", "alice", 0, 1⟩] ⟨[], [], 0⟩
        = .fatal msg ⟨[], [], 1⟩) ∧
    ((ByUsername (quietEnv 0).lookupFault [⟨"id0", "carol"⟩] "bob").2 = some ErrUserNotFound ∧
      (CreateUser (quietEnv 0).createFault [⟨"id0", "carol"⟩] ⟨"id0", "bob"⟩).1
        = some (Error.pg "duplicate key value violates unique constraint \"account_pkey\"") ∧
      ∃ msg, processRequests defaultConfig quietEnv
          [⟨"r1", "bob", 0, 0⟩, ⟨"r2", "alice", 0, 1⟩] ⟨[⟨"id0", "carol"⟩], [], 0⟩
        = .fatal msg ⟨[⟨"id0", "carol"⟩], [], 1⟩) :=
  ⟨⟨by decide, by decide,
    (store_error_halts defaultConfig lostConnectionEnv ⟨"r1", "bob", 0, 0⟩
      [⟨"r2", "alice", 0, 1⟩] ⟨[], [], 0⟩
      (Or.inl ⟨Error.pg "connection reset by peer", by decide, by decide⟩)).imp
      (fun _ h => h.2.1)⟩,
   ⟨by decide, by decide,
    (store_error_halts defaultConfig quietEnv ⟨"r1", "bob", 0, 0⟩
      [⟨"r2", "alice", 0, 1⟩] ⟨[⟨"id0", "carol"⟩], [], 0⟩
      (Or.inr ⟨by decide, "id0",
        Error.pg "duplicate key value violates unique constraint \"account_pkey\"",
        rfl, by decide⟩)).imp
      (fun _ h => h.2.1)⟩⟩

theorem answers_correlate (names : List String) (rs : List SignupRequest) :
    (answers names rs).map (fun x => (x.RequestID, x.Username))
      = rs.map (fun r => (r.ID, r.Username)) := by
  induction rs generalizing names with
  | nil => rfl
  | cons r rs ih => simp [answers, ih]

/-- C6. For a request `r` the handler gets through, exactly one response is appended to the
response log, and it carries `RequestID = r.ID` and `Username = r.Username`; over a whole run that
does not end in a fatal error the responses therefore pair off with the requests, in order, by
request identifier. -/
theorem one_response_per_request (cfg : Config) (env : Nat → Env) (r : SignupRequest)
    (reqs : List SignupRequest) (w : World) :
    (∀ w', handler cfg env r w = .ret () w' →
      ∃ resp, appended w w' = [responseMessage cfg resp] ∧
        responsesIn (appended w w') = [resp] ∧
        resp.RequestID = r.ID ∧ resp.Username = r.Username) ∧
    ((processRequests cfg env reqs w).returned = true →
      (appended w (processRequests cfg env reqs w).state).length = reqs.length ∧
      (responsesIn (appended w (processRequests cfg env reqs w).state)).map
          (fun x => (x.RequestID, x.Username))
        = reqs.map (fun q => (q.ID, q.Username))) := by
  constructor
  · intro w' h
    obtain ⟨h1, h2⟩ := handler_appended cfg env r w w' h
    exact ⟨_, h1, h2, rfl, rfl⟩
  · intro h
    obtain ⟨k, -, hlog, hret⟩ := processRequests_log cfg env reqs w
    rw [appended_of_log _ _ _ hlog, responsesIn_answers, answers_correlate, hret h,
      List.take_length]
    refine ⟨?_, rfl⟩
    have := congrArg List.length (answers_correlate (w.table.map (fun row => row.Username)) reqs)
    simpa using this

/-- Witness of C6: the request `r1` of "bob" is answered by one response that names `r1` and
"bob", and the responses of a run over `r1`, `r2` name `r1`, `r2` in this order. -/
theorem one_response_per_request_witness :
    handler defaultConfig quietEnv ⟨"r1", "bob", 0, 0⟩ ⟨[], [], 0⟩
      = .ret () ⟨[⟨"id0", "bob"⟩], [responseMessage defaultConfig ⟨"r1", "bob", true, 0, 0⟩], 1⟩ ∧
    (∃ resp, appended ⟨[], [], 0⟩ ⟨[⟨"id0", "bob"⟩],
          [responseMessage defaultConfig ⟨"r1", "bob", true, 0, 0⟩], 1⟩
          = [responseMessage defaultConfig resp] ∧
        resp.RequestID = "r1" ∧ resp.Username = "bob") ∧
    (processRequests defaultConfig quietEnv
        [⟨"r1", "bob", 0, 0⟩, ⟨"r2", "bob", 0, 1⟩] ⟨[], [], 0⟩).returned = true ∧
    (responsesIn (appended ⟨[], [], 0⟩ (processRequests defaultConfig quietEnv
        [⟨"r1", "bob", 0, 0⟩, ⟨"r2", "bob", 0, 1⟩] ⟨[], [], 0⟩).state)).map
          (fun x => (x.RequestID, x.Username))
      = [("r1", "bob"), ("r2", "bob")] :=
  ⟨by decide,
   ((one_response_per_request defaultConfig quietEnv ⟨"r1", "bob", 0, 0⟩ [] ⟨[], [], 0⟩).1
      ⟨[⟨"id0", "bob"⟩], [responseMessage defaultConfig ⟨"r1", "bob", true, 0, 0⟩], 1⟩
      (by decide)).imp (fun _ h => ⟨h.1, h.2.2⟩),
   by decide,
   ((one_response_per_request defaultConfig quietEnv ⟨"r1", "bob", 0, 0⟩
      [⟨"r1", "bob", 0, 0⟩, ⟨"r2", "bob", 0, 1⟩] ⟨[], [], 0⟩).2 (by decide)).2⟩

/-! ## The log: keys, payloads and the read loops; the printed line -/

/-- C7. `CreateRequest` appends to the log a message on the configured request topic whose key is
the username of the request, and `CreateResponse` a message on the configured response topic whose
key is the username of the response; so two requests, or two responses, with the same username
carry the same key, and any partitioner that is a function of the key gives them the same
partition. -/
theorem partition_key_is_username (cfg : Config) (req req' : SignupRequest)
    (resp resp' : SignupResponse) (log : List ProducerMessage) (partitioner : String → Nat) :
    (∃ m, CreateRequest cfg none req log = (none, log ++ [m]) ∧
      m.Topic = cfg.requestTopic ∧ m.Key = req.Username ∧ m.Value = jsonMarshalRequest req) ∧
    (∃ m, CreateResponse cfg none resp log = (none, log ++ [m]) ∧
      m.Topic = cfg.responseTopic ∧ m.Key = resp.Username ∧
      m.Value = jsonMarshalResponse resp) ∧
    (req.Username = req'.Username →
      (requestMessage cfg req).Key = (requestMessage cfg req').Key ∧
      partitioner (requestMessage cfg req).Key = partitioner (requestMessage cfg req').Key) ∧
    (resp.Username = resp'.Username →
      (responseMessage cfg resp).Key = (responseMessage cfg resp').Key ∧
      partitioner (responseMessage cfg resp).Key
        = partitioner (responseMessage cfg resp').Key) := by
  refine ⟨⟨requestMessage cfg req, rfl, rfl, rfl, rfl⟩,
    ⟨responseMessage cfg resp, rfl, rfl, rfl, rfl⟩, ?_, ?_⟩
  · intro h
    have hk : (requestMessage cfg req).Key = (requestMessage cfg req').Key := h
    exact ⟨hk, congrArg partitioner hk⟩
  · intro h
    have hk : (responseMessage cfg resp).Key = (responseMessage cfg resp').Key := h
    exact ⟨hk, congrArg partitioner hk⟩

/-- Witness of C7: two requests of "bob" with different identifiers get the same partition under
the partitioner that takes the length of the key. -/
theorem partition_key_is_username_witness :
    (⟨"r1", "bob", 0, 0⟩ : SignupRequest).Username = (⟨"r2", "bob", 0, 0⟩ : SignupRequest).Username ∧
    String.length (requestMessage defaultConfig ⟨"r1", "bob", 0, 0⟩).Key
      = String.length (requestMessage defaultConfig ⟨"r2", "bob", 0, 0⟩).Key :=
  ⟨rfl, ((partition_key_is_username defaultConfig ⟨"r1", "bob", 0, 0⟩ ⟨"r2", "bob", 0, 0⟩
      ⟨"r1", "bob", true, 0, 0⟩ ⟨"r2", "bob", false, 0, 0⟩ [] String.length).2.2.1 rfl).2⟩

theorem encodeRune_lt (c : Char) (b : Nat) (h : b ∈ encodeRune c) : b < 0xF8 := by
  have hc := char_range c
  unfold encodeRune at h
  split_ifs at h <;> simp at h <;> omega

/-- Counterexample to C8 as stated: the username of the three bytes 61 FF 62 is a Go string that
is no text, since no text has these bytes in UTF-8.  `json.Marshal` writes the byte FF as the
escape of U+FFFD, so when the payload of the request with the identifier `r1` and this username is
delivered at partition 0 and offset 5, `Requests` passes to the callback a request whose username
is the text `a`, U+FFFD, `b`, of the five bytes 61 EF BF BD 62, and not the username that was
sent. -/
theorem request_round_trip_fails_on_invalid_utf8 :
    marshalRequest (utf8 "r1") [0x61, 0xFF, 0x62]
      = ascii "\x7b\"id\":\"r1\",\"username\":\"a\\ufffdb\"\x7d" ∧
    Requests none
        [⟨"account.signup_request", 0, 5, marshalRequest (utf8 "r1") [0x61, 0xFF, 0x62]⟩]
        record []
      = .ret none [⟨"r1", "a\uFFFDb", 0, 5⟩] ∧
    utf8 "a\uFFFDb" = [0x61, 0xEF, 0xBF, 0xBD, 0x62] ∧
    ∀ s : String, utf8 s ≠ [0x61, 0xFF, 0x62] := by
  refine ⟨by decide, by decide, by decide, ?_⟩
  intro s h
  have hmem : 0xFF ∈ utf8 s := by rw [h]; simp
  obtain ⟨c, -, hc⟩ := List.mem_flatMap.mp hmem
  have := encodeRune_lt c _ hc
  omega

/-- C8, amended. Round trip of the request payload for strings that are well-formed UTF-8, that
is for texts: when the payload `CreateRequest` writes for a request `r`, which is `json.Marshal`
on the bytes of its identifier and username, is delivered as a message of partition `p` and
offset `o`, `Requests` calls the callback once, with a request whose `ID` and `Username` are
those of `r` and whose `Partition` and `SequenceID` are `p` and `o`; the payload itself does not
depend on the `Partition` and `SequenceID` of `r`. -/
theorem request_round_trip {σ : Type} (cfg : Config) (r : SignupRequest) (topic : String)
    (p o : Int) (f : SignupRequest → σ → Outcome σ Unit) (s : σ) :
    (requestMessage cfg r).Value = marshalRequest (utf8 r.ID) (utf8 r.Username) ∧
    Requests none [⟨topic, p, o, (requestMessage cfg r).Value⟩] f s
      = finish (f { ID := r.ID, Username := r.Username, Partition := p, SequenceID := o } s)
          none ∧
    Requests none [⟨topic, p, o, (requestMessage cfg r).Value⟩] record []
      = .ret none [{ ID := r.ID, Username := r.Username, Partition := p, SequenceID := o }] ∧
    (requestMessage cfg r).Value
      = (requestMessage cfg { r with Partition := 0, SequenceID := 0 }).Value := by
  have key : ∀ (τ : Type) (g : SignupRequest → τ → Outcome τ Unit) (t : τ),
      Requests none [⟨topic, p, o, (requestMessage cfg r).Value⟩] g t
        = finish (g { ID := r.ID, Username := r.Username, Partition := p, SequenceID := o } t)
            none := by
    intro τ g t
    cases hg : g { ID := r.ID, Username := r.Username, Partition := p, SequenceID := o } t <;>
      simp [Requests, RequestsWith, consumeRequests, requestMessage, unmarshal_marshal_request,
        finish, hg]
  exact ⟨rfl, key σ f s, by rw [key]; rfl, rfl⟩

theorem forEach_record {α : Type} (xs calls : List α) :
    forEach record xs calls = .ret () (calls ++ xs) := by
  induction xs generalizing calls with
  | nil => simp [forEach]
  | cons x xs ih => simp [forEach, record, ih]

theorem consumeRequests_append {σ : Type} (unmarshal : List Nat → Except Error SignupRequest)
    (f : SignupRequest → σ → Outcome σ Unit) (pre rest : List ConsumerMessage) (s : σ)
    (hpre : ∀ m ∈ pre, (deliveredRequest unmarshal m).isSome = true) :
    consumeRequests unmarshal f (pre ++ rest) s
      = match forEach f (pre.filterMap (deliveredRequest unmarshal)) s with
        | .ret _ s' => consumeRequests unmarshal f rest s'
        | .fatal msg s' => .fatal msg s' := by
  induction pre generalizing s with
  | nil => rfl
  | cons m pre ih =>
    have hm := hpre m (List.mem_cons_self _ _)
    have hrest : ∀ x ∈ pre, (deliveredRequest unmarshal x).isSome = true :=
      fun x hx => hpre x (List.mem_cons_of_mem _ hx)
    unfold deliveredRequest at hm
    cases hd : unmarshal m.Value with
    | error e => simp [hd] at hm
    | ok r =>
      simp only [List.cons_append, consumeRequests, hd, List.filterMap_cons, deliveredRequest,
        forEach]
      cases f { r with Partition := m.Partition, SequenceID := m.Offset } s with
      | fatal msg s' => rfl
      | ret a s' => exact ih s' hrest

theorem consumeResponses_append {σ : Type} (unmarshal : List Nat → Except Error SignupResponse)
    (f : SignupResponse → σ → Outcome σ Unit) (pre rest : List ConsumerMessage) (s : σ)
    (hpre : ∀ m ∈ pre, (deliveredResponse unmarshal m).isSome = true) :
    consumeResponses unmarshal f (pre ++ rest) s
      = match forEach f (pre.filterMap (deliveredResponse unmarshal)) s with
        | .ret _ s' => consumeResponses unmarshal f rest s'
        | .fatal msg s' => .fatal msg s' := by
  induction pre generalizing s with
  | nil => rfl
  | cons m pre ih =>
    have hm := hpre m (List.mem_cons_self _ _)
    have hrest : ∀ x ∈ pre, (deliveredResponse unmarshal x).isSome = true :=
      fun x hx => hpre x (List.mem_cons_of_mem _ hx)
    unfold deliveredResponse at hm
    cases hd : unmarshal m.Value with
    | error e => simp [hd] at hm
    | ok r =>
      simp only [List.cons_append, consumeResponses, hd, List.filterMap_cons, deliveredResponse,
        forEach]
      cases f { r with Partition := m.Partition, SequenceID := m.Offset } s with
      | fatal msg s' => rfl
      | ret a s' => exact ih s' hrest

theorem filterMap_length_of_isSome {α β : Type} (g : α → Option β) (xs : List α)
    (h : ∀ x ∈ xs, (g x).isSome = true) : (xs.filterMap g).length = xs.length := by
  induction xs with
  | nil => rfl
  | cons x xs ih =>
    have hx := h x (List.mem_cons_self _ _)
    obtain ⟨y, hy⟩ := Option.isSome_iff_exists.mp hx
    simp [List.filterMap_cons, hy, ih (fun z hz => h z (List.mem_cons_of_mem _ hz))]

/-- C9. A malformed record is surfaced, never skipped, whatever the decoder counts as malformed:
the statement holds for every function `unmarshalRequest` and `unmarshalResponse` in the place of
`json.Unmarshal`, and `Requests` and `Responses` are the case of the decoders
`jsonUnmarshalRequest` and `jsonUnmarshalResponse`.  When the messages `pre` all decode and the
payload of `bad` does not, `Requests` on `pre`, `bad` and any later messages calls the callback
for the messages of `pre`, once each and in delivery order, and returns the decode error of `bad`;
the callback sees neither `bad` nor a later message.  When every message decodes, the callback is
called once per message in delivery order and the result is `nil`.  `Responses` behaves in the
same way on the merged stream. -/
theorem malformed_record_surfaces {σ : Type}
    (unmarshalRequest : List Nat → Except Error SignupRequest)
    (unmarshalResponse : List Nat → Except Error SignupResponse)
    (pre post : List ConsumerMessage) (bad : ConsumerMessage) (s : σ) :
    (∀ (f : SignupRequest → σ → Outcome σ Unit) (e : Error),
      (∀ m ∈ pre, (deliveredRequest unmarshalRequest m).isSome = true) →
      unmarshalRequest bad.Value = .error e →
        RequestsWith unmarshalRequest none (pre ++ bad :: post) f s
          = finish (forEach f (pre.filterMap (deliveredRequest unmarshalRequest)) s) (some e) ∧
        RequestsWith unmarshalRequest none (pre ++ bad :: post) record []
          = .ret (some e) (pre.filterMap (deliveredRequest unmarshalRequest)) ∧
        (pre.filterMap (deliveredRequest unmarshalRequest)).length = pre.length) ∧
    (∀ (f : SignupRequest → σ → Outcome σ Unit),
      (∀ m ∈ pre, (deliveredRequest unmarshalRequest m).isSome = true) →
        RequestsWith unmarshalRequest none pre f s
          = finish (forEach f (pre.filterMap (deliveredRequest unmarshalRequest)) s) none ∧
        RequestsWith unmarshalRequest none pre record []
          = .ret none (pre.filterMap (deliveredRequest unmarshalRequest)) ∧
        (pre.filterMap (deliveredRequest unmarshalRequest)).length = pre.length) ∧
    (∀ (f : SignupResponse → σ → Outcome σ Unit) (e : Error),
      (∀ m ∈ pre, (deliveredResponse unmarshalResponse m).isSome = true) →
      unmarshalResponse bad.Value = .error e →
        ResponsesWith unmarshalResponse none (pre ++ bad :: post) f s
          = finish (forEach f (pre.filterMap (deliveredResponse unmarshalResponse)) s) (some e) ∧
        ResponsesWith unmarshalResponse none (pre ++ bad :: post) record []
          = .ret (some e) (pre.filterMap (deliveredResponse unmarshalResponse)) ∧
        (pre.filterMap (deliveredResponse unmarshalResponse)).length = pre.length) ∧
    (∀ (f : SignupResponse → σ → Outcome σ Unit),
      (∀ m ∈ pre, (deliveredResponse unmarshalResponse m).isSome = true) →
        ResponsesWith unmarshalResponse none pre f s
          = finish (forEach f (pre.filterMap (deliveredResponse unmarshalResponse)) s) none ∧
        ResponsesWith unmarshalResponse none pre record []
          = .ret none (pre.filterMap (deliveredResponse unmarshalResponse)) ∧
        (pre.filterMap (deliveredResponse unmarshalResponse)).length = pre.length) ∧
    (∀ (msgs : List ConsumerMessage) (f : SignupRequest → σ → Outcome σ Unit),
      Requests none msgs f s = RequestsWith jsonUnmarshalRequest none msgs f s) ∧
    (∀ (msgs : List ConsumerMessage) (f : SignupResponse → σ → Outcome σ Unit),
      Responses none msgs f s = ResponsesWith jsonUnmarshalResponse none msgs f s) := by
  refine ⟨?_, ?_, ?_, ?_, fun _ _ => rfl, fun _ _ => rfl⟩
  · intro f e hpre hbad
    have key : ∀ (τ : Type) (g : SignupRequest → τ → Outcome τ Unit) (t : τ),
        RequestsWith unmarshalRequest none (pre ++ bad :: post) g t
          = finish (forEach g (pre.filterMap (deliveredRequest unmarshalRequest)) t)
              (some e) := by
      intro τ g t
      simp only [RequestsWith, consumeRequests_append unmarshalRequest g pre (bad :: post) t hpre,
        finish]
      cases forEach g (pre.filterMap (deliveredRequest unmarshalRequest)) t with
      | fatal msg s' => rfl
      | ret a s' => simp [consumeRequests, hbad]
    refine ⟨key σ f s, ?_, filterMap_length_of_isSome _ _ hpre⟩
    rw [key, forEach_record]
    rfl
  · intro f hpre
    have key : ∀ (τ : Type) (g : SignupRequest → τ → Outcome τ Unit) (t : τ),
        RequestsWith unmarshalRequest none pre g t
          = finish (forEach g (pre.filterMap (deliveredRequest unmarshalRequest)) t) none := by
      intro τ g t
      have h := consumeRequests_append unmarshalRequest g pre [] t hpre
      rw [List.append_nil] at h
      simp only [RequestsWith, h, finish]
      cases forEach g (pre.filterMap (deliveredRequest unmarshalRequest)) t with
      | fatal msg s' => rfl
      | ret a s' => simp [consumeRequests]
    refine ⟨key σ f s, ?_, filterMap_length_of_isSome _ _ hpre⟩
    rw [key, forEach_record]
    rfl
  · intro f e hpre hbad
    have key : ∀ (τ : Type) (g : SignupResponse → τ → Outcome τ Unit) (t : τ),
        ResponsesWith unmarshalResponse none (pre ++ bad :: post) g t
          = finish (forEach g (pre.filterMap (deliveredResponse unmarshalResponse)) t)
              (some e) := by
      intro τ g t
      simp only [ResponsesWith,
        consumeResponses_append unmarshalResponse g pre (bad :: post) t hpre, finish]
      cases forEach g (pre.filterMap (deliveredResponse unmarshalResponse)) t with
      | fatal msg s' => rfl
      | ret a s' => simp [consumeResponses, hbad]
    refine ⟨key σ f s, ?_, filterMap_length_of_isSome _ _ hpre⟩
    rw [key, forEach_record]
    rfl
  · intro f hpre
    have key : ∀ (τ : Type) (g : SignupResponse → τ → Outcome τ Unit) (t : τ),
        ResponsesWith unmarshalResponse none pre g t
          = finish (forEach g (pre.filterMap (deliveredResponse unmarshalResponse)) t)
              none := by
      intro τ g t
      have h := consumeResponses_append unmarshalResponse g pre [] t hpre
      rw [List.append_nil] at h
      simp only [ResponsesWith, h, finish]
      cases forEach g (pre.filterMap (deliveredResponse unmarshalResponse)) t with
      | fatal msg s' => rfl
      | ret a s' => simp [consumeResponses]
    refine ⟨key σ f s, ?_, filterMap_length_of_isSome _ _ hpre⟩
    rw [key, forEach_record]
    rfl

/-- Witness of C9, at the decoder `jsonUnmarshalRequest`: of three messages, the first an object
with the member names in capitals and a further member `extra`, the second an object whose member
`ID` is a boolean, the callback of `Requests` sees the first only, as the request `r1` of "bob",
and the type error of the second is returned. -/
theorem malformed_record_surfaces_witness :
    (∀ m ∈ [(⟨"account.signup_request", 0, 7,
        ascii "\x7b\"ID\":\"r1\",\"USERNAME\":\"bob\",\"extra\":1\x7d"⟩ : ConsumerMessage)],
      (deliveredRequest jsonUnmarshalRequest m).isSome = true) ∧
    jsonUnmarshalRequest (ascii "\x7b\"ID\":true\x7d")
      = .error (Error.json "cannot unmarshal value into Go struct field of type string") ∧
    Requests none
        ([⟨"account.signup_request", 0, 7,
            ascii "\x7b\"ID\":\"r1\",\"USERNAME\":\"bob\",\"extra\":1\x7d"⟩] ++
          ⟨"account.signup_request", 0, 8, ascii "\x7b\"ID\":true\x7d"⟩ ::
          [⟨"account.signup_request", 0, 9, jsonMarshalRequest ⟨"r3", "alice", 0, 0⟩⟩])
        record []
      = .ret (some (Error.json "cannot unmarshal value into Go struct field of type string"))
          [⟨"r1", "bob", 0, 7⟩] :=
  ⟨by decide, rfl,
    ((malformed_record_surfaces jsonUnmarshalRequest jsonUnmarshalResponse
      [⟨"account.signup_request", 0, 7,
        ascii "\x7b\"ID\":\"r1\",\"USERNAME\":\"bob\",\"extra\":1\x7d"⟩]
      [⟨"account.signup_request", 0, 9, jsonMarshalRequest ⟨"r3", "alice", 0, 0⟩⟩]
      ⟨"account.signup_request", 0, 8, ascii "\x7b\"ID\":true\x7d"⟩
      ([] : List SignupRequest)).1 record
      (Error.json "cannot unmarshal value into Go struct field of type string")
      (by decide) rfl).2.1.trans (by decide)⟩

/-- Counterexample to C10 as stated: for the accepted request `r1` of "bob" at partition 0 and
offset 5 the printed line is not the line of the specification, with or without the final
newline; the marker is printed last, not first. -/
theorem printed_line_is_not_spec_line :
    printResponse ⟨"r1", "bob", true, 0, 5⟩ ≠ specLine ⟨"r1", "bob", true, 0, 5⟩ ++ "\n" ∧
    printResponse ⟨"r1", "bob", true, 0, 5⟩ ≠ specLine ⟨"r1", "bob", true, 0, 5⟩ ∧
    printResponse ⟨"r1", "bob", true, 0, 5⟩ = "0:5 r1 bob ✅\n" ∧
    specLine ⟨"r1", "bob", true, 0, 5⟩ = "0:5 ✅ r1 bob" := by
  decide

/-- C10, amended. For every response, the line `printResponses` prints is the partition and the
sequence number in decimal with a colon between them, then, each after one space, the request
identifier, the username and the success marker, and a final newline; partition and sequence
number are those of the message that carried the response. -/
theorem printed_line_format (resp : SignupResponse) :
    printResponse resp
      = toString resp.Partition ++ ":" ++ toString resp.SequenceID ++ " " ++ resp.RequestID
        ++ " " ++ resp.Username ++ " " ++ successMarker resp.Success ++ "\n" ∧
    ∀ (topic : String) (p o : Int) (out : String),
      printResponses none [⟨topic, p, o, jsonMarshalResponse resp⟩] out
        = .ret () (out ++ (toString p ++ ":" ++ toString o ++ " " ++ resp.RequestID
            ++ " " ++ resp.Username ++ " " ++ successMarker resp.Success ++ "\n")) := by
  have line : ∀ x : SignupResponse, printResponse x
      = toString x.Partition ++ ":" ++ toString x.SequenceID ++ " " ++ x.RequestID
        ++ " " ++ x.Username ++ " " ++ successMarker x.Success ++ "\n" := by
    intro x
    apply String.ext
    simp [printResponse, Sprintf, formatArg, String.toList]
  refine ⟨line resp, fun topic p o out => ?_⟩
  simp only [printResponses, Responses, ResponsesWith, consumeResponses,
    unmarshal_marshal_response, line]

/-! ## The user store -/

theorem ByUsername_eq_scan (fault : Option String) (table : List User) (username : String) :
    ByUsername fault table username
      = scanByUsername (poolByUsername fault table username) username := by
  unfold ByUsername scanByUsername poolByUsername
  cases fault with
  | some msg => rfl
  | none => cases queryByUsername table username <;> rfl

theorem queryByUsername_of_not_taken (table : List User) (u : String)
    (h : taken table u = false) : queryByUsername table u = .error Error.pgNoRows := by
  unfold queryByUsername
  have : table.find? (fun row => row.Username == u) = none := by
    rw [List.find?_eq_none]
    intro x hx hxu
    have : taken table u = true := List.any_eq_true.mpr ⟨x, hx, hxu⟩
    simp [h] at this
  rw [this]

theorem queryByUsername_of_taken (table : List User) (u : String)
    (h : taken table u = true) :
    ∃ row, row ∈ table ∧ row.Username = u ∧ queryByUsername table u = .ok row.ID := by
  unfold queryByUsername
  cases hf : table.find? (fun row => row.Username == u) with
  | none =>
    rw [List.find?_eq_none] at hf
    obtain ⟨x, hx, hxu⟩ := List.any_eq_true.mp h
    exact absurd hxu (hf x hx)
  | some row =>
    exact ⟨row, List.mem_of_find?_eq_some hf, by simpa using List.find?_some hf, rfl⟩

theorem execCreate_ok (table : List User) (u : User) (table' : List User)
    (h : execCreate table u = .ok table') :
    table' = table ++ [u] ∧ taken table u.Username = false ∧
      table.any (fun row => row.ID == u.ID) = false := by
  unfold execCreate at h
  split_ifs at h with h1 h2
  refine ⟨by simpa using h.symm, ?_, ?_⟩
  · simpa [taken] using h2
  · simpa using h1

theorem CreateUser_ok (fault : Option String) (table : List User) (u : User) (table' : List User)
    (h : CreateUser fault table u = (none, table')) :
    table' = table ++ [u] ∧ taken table u.Username = false ∧
      table.any (fun row => row.ID == u.ID) = false := by
  unfold CreateUser at h
  cases fault with
  | some msg => simp at h
  | none =>
    simp only at h
    cases he : execCreate table u with
    | error e => simp [he] at h
    | ok t =>
      simp [he] at h
      subst h
      exact execCreate_ok table u t he

/-- C13. Store round trip: when `CreateUser` succeeds for a user `u`, a following `ByUsername` of
`u.Username` that reaches the database returns no error and a user equal to `u` in `ID` and
`Username`. -/
theorem create_then_lookup (fault : Option String) (table : List User) (u : User)
    (table' : List User) (h : CreateUser fault table u = (none, table')) :
    ByUsername none table' u.Username = (u, none) := by
  obtain ⟨rfl, hfree, -⟩ := CreateUser_ok fault table u table' h
  have hfind : (table ++ [u]).find? (fun row => row.Username == u.Username) = some u := by
    rw [List.find?_append]
    have : table.find? (fun row => row.Username == u.Username) = none := by
      rw [List.find?_eq_none]
      intro x hx hxu
      have : taken table u.Username = true := List.any_eq_true.mpr ⟨x, hx, hxu⟩
      simp [hfree] at this
    simp [this]
  simp [ByUsername, queryByUsername, hfind]

/-- Witness of C13: the user `0ujzPyRiIAffKhBux4PvQdDqMHY` named "bob" on an empty table. -/
theorem create_then_lookup_witness :
    CreateUser none [] ⟨"0ujzPyRiIAffKhBux4PvQdDqMHY", "bob"⟩
      = (none, [⟨"0ujzPyRiIAffKhBux4PvQdDqMHY", "bob"⟩]) ∧
    ByUsername none [⟨"0ujzPyRiIAffKhBux4PvQdDqMHY", "bob"⟩] "bob"
      = (⟨"0ujzPyRiIAffKhBux4PvQdDqMHY", "bob"⟩, none) :=
  ⟨by decide,
    create_then_lookup none [] ⟨"0ujzPyRiIAffKhBux4PvQdDqMHY", "bob"⟩
      [⟨"0ujzPyRiIAffKhBux4PvQdDqMHY", "bob"⟩] (by decide)⟩

/-- C14. `ByUsername` returns `account.ErrUserNotFound` exactly when the lookup reaches the
database and finds no row for the username, that is when the statement gives `pgx.ErrNoRows`;
it returns a nil error and the id of the row when a row is found; and every other error of the
store is returned as it is. -/
theorem not_found_iff_no_row (fault : Option String) (table : List User) (username : String) :
    ((ByUsername fault table username).2 = some ErrUserNotFound ↔
      fault = none ∧ taken table username = false) ∧
    ((ByUsername fault table username).2 = some ErrUserNotFound ↔
      poolByUsername fault table username = .error Error.pgNoRows) ∧
    (fault = none → taken table username = true →
      ∃ row, row ∈ table ∧ row.Username = username ∧
        ByUsername fault table username = ({ ID := row.ID, Username := username }, none)) ∧
    (∀ msg, fault = some msg →
      ByUsername fault table username
        = ({ ID := "", Username := username }, some (Error.pg msg))) ∧
    (∀ err, err ≠ Error.pgNoRows →
      scanByUsername (.error err) username = ({ ID := "", Username := username }, some err)) ∧
    scanByUsername (.error Error.pgNoRows) username
      = ({ ID := "", Username := username }, some ErrUserNotFound) := by
  refine ⟨?_, ?_, ?_, ?_, ?_, ?_⟩
  · rw [ByUsername_err]
    cases fault with
    | some msg => simp [ErrUserNotFound]
    | none => cases h : taken table username <;> simp
  · rw [ByUsername_eq_scan]
    cases h : poolByUsername fault table username with
    | ok id => simp [scanByUsername]
    | error err =>
      by_cases he : err = Error.pgNoRows
      · simp [scanByUsername, he]
      · have hne : err ≠ ErrUserNotFound := by
          intro hx
          subst hx
          cases fault with
          | some msg => simp [poolByUsername, ErrUserNotFound] at h
          | none =>
            simp only [poolByUsername, queryByUsername] at h
            cases hf : table.find? (fun row => row.Username == username) <;>
              simp [hf, ErrUserNotFound] at h
        simp [scanByUsername, he, hne]
  · intro hf ht
    subst hf
    obtain ⟨row, hmem, hname, hq⟩ := queryByUsername_of_taken table username ht
    exact ⟨row, hmem, hname, by rw [ByUsername_eq_scan]; simp [poolByUsername, hq, scanByUsername]⟩
  · intro msg hf
    subst hf
    rfl
  · intro err he
    simp [scanByUsername, he]
  · rfl

/-- Witness of C14: `ByUsername("bob")` on an empty table returns `ErrUserNotFound`, and a lost
connection is passed through. -/
theorem not_found_iff_no_row_witness :
    ByUsername none [] "bob" = (⟨"", "bob"⟩, some ErrUserNotFound) ∧
    ByUsername (some "connection reset by peer") [] "bob"
      = (⟨"", "bob"⟩, some (Error.pg "connection reset by peer")) :=
  ⟨Prod.ext rfl ((not_found_iff_no_row none [] "bob").1.mpr ⟨rfl, by decide⟩),
    (not_found_iff_no_row (some "connection reset by peer") [] "bob").2.2.2.1
      "connection reset by peer" rfl⟩

theorem CreateUser_table (fault : Option String) (table : List User) (u : User) :
    (CreateUser fault table u).2 = table ∨
      ((CreateUser fault table u).2 = table ++ [u] ∧ taken table u.Username = false ∧
        table.any (fun row => row.ID == u.ID) = false) := by
  cases h : CreateUser fault table u with
  | mk err table' =>
    cases err with
    | none => exact Or.inr (CreateUser_ok fault table u table' h)
    | some e =>
      left
      unfold CreateUser at h
      cases fault with
      | some msg => simp at h; exact h.2.symm
      | none =>
        simp only at h
        cases he : execCreate table u with
        | error e' => simp [he] at h; exact h.2.symm
        | ok t => simp [he] at h

theorem filter_username_le_one (table : List User) (name : String)
    (h : (table.map (fun row => row.Username)).Nodup) :
    (table.filter (fun row => row.Username == name)).length ≤ 1 := by
  induction table with
  | nil => simp
  | cons row rows ih =>
    rw [List.map_cons, List.nodup_cons] at h
    by_cases hn : row.Username = name
    · have hnone : rows.filter (fun r => r.Username == name) = [] := by
        rw [List.filter_eq_nil_iff]
        intro x hx hxn
        apply h.1
        rw [hn]
        exact List.mem_map.mpr ⟨x, hx, by simpa using hxn⟩
      simp [List.filter_cons, hn, hnone]
    · simpa [List.filter_cons, hn] using ih h.2

theorem CreateUser_nodup (fault : Option String) (table : List User) (u : User)
    (hn : (table.map (fun row => row.Username)).Nodup)
    (hi : (table.map (fun row => row.ID)).Nodup) :
    ((CreateUser fault table u).2.map (fun row => row.Username)).Nodup ∧
    ((CreateUser fault table u).2.map (fun row => row.ID)).Nodup := by
  rcases CreateUser_table fault table u with h | ⟨h, hfree, hid⟩
  · rw [h]; exact ⟨hn, hi⟩
  · rw [h]
    constructor
    · rw [List.map_append, List.nodup_append]
      refine ⟨hn, by simp, ?_⟩
      intro a ha hb
      simp only [List.map_cons, List.map_nil, List.mem_singleton] at hb
      subst hb
      obtain ⟨x, hx, hxu⟩ := List.mem_map.mp ha
      have : taken table u.Username = true := List.any_eq_true.mpr ⟨x, hx, by simpa using hxu⟩
      simp [hfree] at this
    · rw [List.map_append, List.nodup_append]
      refine ⟨hi, by simp, ?_⟩
      intro a ha hb
      simp only [List.map_cons, List.map_nil, List.mem_singleton] at hb
      subst hb
      obtain ⟨x, hx, hxu⟩ := List.mem_map.mp ha
      have : table.any (fun row => row.ID == u.ID) = true :=
        List.any_eq_true.mpr ⟨x, hx, by simpa using hxu⟩
      simp [hid] at this

theorem createMany_nodup (calls : List (Option String × User)) (table : List User)
    (hn : (table.map (fun row => row.Username)).Nodup)
    (hi : (table.map (fun row => row.ID)).Nodup) :
    ((createMany calls table).map (fun row => row.Username)).Nodup ∧
    ((createMany calls table).map (fun row => row.ID)).Nodup := by
  induction calls generalizing table with
  | nil => exact ⟨hn, hi⟩
  | cons c calls ih =>
    obtain ⟨fault, u⟩ := c
    obtain ⟨h1, h2⟩ := CreateUser_nodup fault table u hn hi
    exact ih _ h1 h2

/-- C15. `CreateUser` returns an error and leaves the table as it is whenever the table already
holds a user with the same username or a user with the same id; so in every table reached from
the empty one by `CreateUser` calls, at most one user exists per username (and per id). -/
theorem duplicate_create_fails (fault : Option String) (table : List User) (u : User)
    (calls : List (Option String × User)) (name : String) :
    (taken table u.Username = true ∨ table.any (fun row => row.ID == u.ID) = true →
      ∃ err, CreateUser fault table u = (some err, table)) ∧
    ((createMany calls []).filter (fun row => row.Username == name)).length ≤ 1 ∧
    ((createMany calls []).map (fun row => row.Username)).Nodup ∧
    ((createMany calls []).map (fun row => row.ID)).Nodup := by
  obtain ⟨hn, hi⟩ := createMany_nodup calls [] (by simp) (by simp)
  refine ⟨?_, filter_username_le_one _ name hn, hn, hi⟩
  intro h
  cases fault with
  | some msg => exact ⟨Error.pg msg, rfl⟩
  | none =>
    unfold CreateUser execCreate
    by_cases hid : table.any (fun row => row.ID == u.ID) = true
    · exact ⟨Error.pg "duplicate key value violates unique constraint \"account_pkey\"",
        by simp only [hid, if_true]⟩
    · have hname : table.any (fun row => row.Username == u.Username) = true := by
        rcases h with h | h
        · exact h
        · exact absurd h hid
      exact ⟨Error.pg "duplicate key value violates unique constraint \"account_username_key\"",
        by simp only [hid, hname, if_true, if_false]; rfl⟩

/-- Witness of C15: after `bob` is created with the id `0ujzPyRiIAffKhBux4PvQdDqMHY`, creating
"bob" under the id `123` fails, and so does creating "alice" under the id of `bob`. -/
theorem duplicate_create_fails_witness :
    createMany [(none, ⟨"0ujzPyRiIAffKhBux4PvQdDqMHY", "bob"⟩)] []
      = [⟨"0ujzPyRiIAffKhBux4PvQdDqMHY", "bob"⟩] ∧
    taken [⟨"0ujzPyRiIAffKhBux4PvQdDqMHY", "bob"⟩] "bob" = true ∧
    (∃ err, CreateUser none [⟨"0ujzPyRiIAffKhBux4PvQdDqMHY", "bob"⟩] ⟨"123", "bob"⟩
      = (some err, [⟨"0ujzPyRiIAffKhBux4PvQdDqMHY", "bob"⟩])) ∧
    (∃ err, CreateUser none [⟨"0ujzPyRiIAffKhBux4PvQdDqMHY", "bob"⟩]
        ⟨"0ujzPyRiIAffKhBux4PvQdDqMHY", "alice"⟩
      = (some err, [⟨"0ujzPyRiIAffKhBux4PvQdDqMHY", "bob"⟩])) :=
  ⟨by decide, by decide,
    (duplicate_create_fails none [⟨"0ujzPyRiIAffKhBux4PvQdDqMHY", "bob"⟩] ⟨"123", "bob"⟩
      [] "bob").1 (Or.inl (by decide)),
    (duplicate_create_fails none [⟨"0ujzPyRiIAffKhBux4PvQdDqMHY", "bob"⟩]
      ⟨"0ujzPyRiIAffKhBux4PvQdDqMHY", "alice"⟩ [] "bob").1 (Or.inr (by decide))⟩

/-! ## Resuming after a restart -/

theorem taken_append (t₁ t₂ : List User) (u : String) :
    taken (t₁ ++ t₂) u = (taken t₁ u || taken t₂ u) := by
  simp [taken, List.any_append]

/-- Every run only adds rows, each for a username that was free before the run, and no two of
them for the same username. -/
theorem processRequests_table (cfg : Config) (env : Nat → Env) (reqs : List SignupRequest)
    (w : World) :
    ∃ created, (processRequests cfg env reqs w).state.table = w.table ++ created ∧
      (∀ row ∈ created, taken w.table row.Username = false) ∧
      (created.map (fun row => row.Username)).Nodup := by
  induction reqs generalizing w with
  | nil => exact ⟨[], by simp [processRequests, forEach, Outcome.state], by simp, by simp⟩
  | cons r rs ih =>
    unfold processRequests at ih ⊢
    simp only [forEach]
    cases h : handler cfg env r w with
    | fatal msg w1 =>
      obtain ⟨-, -, htab⟩ := handler_fatal cfg env r w w1 msg h
      rcases htab with htab | ⟨hfree, id, htab⟩
      · exact ⟨[], by simp [Outcome.state, htab], by simp, by simp⟩
      · exact ⟨[{ ID := id, Username := r.Username }], by simp [Outcome.state, htab],
          by simpa using hfree, by simp⟩
    | ret a w1 =>
      obtain ⟨-, -, htab⟩ := handler_ret cfg env r w w1 h
      obtain ⟨created, hc, hfree, hnodup⟩ := ih w1
      by_cases ht : taken w.table r.Username = true
      · rw [if_pos ht] at htab
        rw [htab] at hc hfree
        exact ⟨created, hc, hfree, hnodup⟩
      · rw [if_neg ht] at htab
        obtain ⟨id, htab⟩ := htab
        rw [htab] at hc hfree
        refine ⟨{ ID := id, Username := r.Username } :: created, by simpa using hc, ?_, ?_⟩
        · intro row hrow
          rcases List.mem_cons.mp hrow with rfl | hrow
          · simpa using ht
          · have := hfree row hrow
            rw [taken_append] at this
            simpa using (Bool.or_eq_false_iff.mp this).1
        · rw [List.map_cons, List.nodup_cons]
          refine ⟨?_, hnodup⟩
          intro hmem
          obtain ⟨row, hrow, hname⟩ := List.mem_map.mp hmem
          have := hfree row hrow
          rw [taken_append] at this
          have h2 := (Bool.or_eq_false_iff.mp this).2
          simp [taken, hname] at h2

theorem taken_after_run (cfg : Config) (env : Nat → Env) (reqs : List SignupRequest) (w : World)
    (u : String) (h : taken w.table u = true) :
    taken (processRequests cfg env reqs w).state.table u = true := by
  obtain ⟨created, hc, -, -⟩ := processRequests_table cfg env reqs w
  rw [hc, taken_append, h, Bool.true_or]

/-- After a run that got through all its requests every requested username is taken. -/
theorem all_taken_after_run (cfg : Config) (env : Nat → Env) (reqs : List SignupRequest)
    (w : World) (hret : (processRequests cfg env reqs w).returned = true) :
    ∀ r ∈ reqs, taken (processRequests cfg env reqs w).state.table r.Username = true := by
  induction reqs generalizing w with
  | nil => simp
  | cons q qs ih =>
    unfold processRequests at ih hret ⊢
    simp only [forEach] at hret ⊢
    cases h : handler cfg env q w with
    | fatal msg w1 => simp [h, Outcome.returned] at hret
    | ret a w1 =>
      simp only [h] at hret ⊢
      obtain ⟨-, -, htab⟩ := handler_ret cfg env q w w1 h
      intro r hr
      rcases List.mem_cons.mp hr with rfl | hr
      · have h1 : taken w1.table r.Username = true := by
          by_cases ht : taken w.table r.Username = true
          · rw [if_pos ht] at htab; rw [htab]; exact ht
          · rw [if_neg ht] at htab
            obtain ⟨id, htab⟩ := htab
            rw [htab, taken_append]
            simp [taken]
        exact taken_after_run cfg env qs w1 r.Username h1
      · exact ih w1 hret r hr

/-- A run over requests whose usernames are all taken leaves the table as it is. -/
theorem table_unchanged_of_taken (cfg : Config) (env : Nat → Env) (reqs : List SignupRequest)
    (w : World) (h : ∀ r ∈ reqs, taken w.table r.Username = true) :
    (processRequests cfg env reqs w).state.table = w.table := by
  induction reqs generalizing w with
  | nil => rfl
  | cons q qs ih =>
    unfold processRequests at ih ⊢
    simp only [forEach]
    have hq := h q (List.mem_cons_self _ _)
    cases hh : handler cfg env q w with
    | fatal msg w1 =>
      obtain ⟨-, -, htab⟩ := handler_fatal cfg env q w w1 msg hh
      rcases htab with htab | ⟨hfree, -⟩
      · exact htab
      · simp [hq] at hfree
    | ret a w1 =>
      obtain ⟨-, -, htab⟩ := handler_ret cfg env q w w1 hh
      rw [if_pos hq] at htab
      have := ih w1 (fun r hr => by rw [htab]; exact h r (List.mem_cons_of_mem _ hr))
      simp only [Outcome.state] at this ⊢
      rw [this, htab]

theorem filter_of_nodup (rows : List User) (row : User) (hmem : row ∈ rows)
    (h : (rows.map (fun x => x.Username)).Nodup) :
    rows.filter (fun x => x.Username == row.Username) = [row] := by
  induction rows with
  | nil => simp at hmem
  | cons x xs ih =>
    rw [List.map_cons, List.nodup_cons] at h
    rcases List.mem_cons.mp hmem with rfl | hmem
    · have : xs.filter (fun x => x.Username == row.Username) = [] := by
        rw [List.filter_eq_nil_iff]
        intro y hy hyn
        exact h.1 (List.mem_map.mpr ⟨y, hy, by simpa using hyn⟩)
      simp [List.filter_cons, this]
    · have hne : ¬ x.Username = row.Username := by
        intro hx
        exact h.1 (List.mem_map.mpr ⟨row, hmem, hx.symm⟩)
      simp [List.filter_cons, hne, ih hmem h.2]

/-- C12. Idempotent resumption.  Let a run get through a request list `L`, and let the server
be started again on the store it left (`w₂`, with any response log and any behaviour of the
outside world) to handle a suffix `S` of `L` once more.  The replay creates no user: the table
after it is the table before it and every response of the replay is a rejection.  Moreover every
user the first run created is still the only row with its username, after the replay of `S` and
after a run over any other requests `S'`. -/
theorem replay_creates_no_user (cfg : Config) (env env' : Nat → Env) (L S : List SignupRequest)
    (w w₂ : World) (hrun : (processRequests cfg env L w).returned = true) (hS : S <:+ L)
    (hstore : w₂.table = (processRequests cfg env L w).state.table) :
    (processRequests cfg env' S w₂).state.table = w₂.table ∧
    (∀ resp ∈ responsesIn (appended w₂ (processRequests cfg env' S w₂).state),
      resp.Success = false) ∧
    (∀ (S' : List SignupRequest),
      ∀ row ∈ (processRequests cfg env L w).state.table.drop w.table.length,
        (processRequests cfg env' S' w₂).state.table.filter
          (fun x => x.Username == row.Username) = [row]) := by
  have htaken : ∀ r ∈ S, taken w₂.table r.Username = true := by
    intro r hr
    rw [hstore]
    exact all_taken_after_run cfg env L w hrun r (hS.subset hr)
  have htable := table_unchanged_of_taken cfg env' S w₂ htaken
  refine ⟨htable, ?_, ?_⟩
  · intro resp hresp
    obtain ⟨k, -, hlog, -⟩ := processRequests_log cfg env' S w₂
    rw [appended_of_log _ _ _ hlog, responsesIn_answers] at hresp
    have hall : ∀ (rs : List SignupRequest) (names : List String),
        (∀ r ∈ rs, names.contains r.Username = true) →
        ∀ x ∈ answers names rs, x.Success = false := by
      intro rs
      induction rs with
      | nil => intro names _ x hx; simp [answers] at hx
      | cons q qs ih =>
        intro names hn x hx
        simp only [answers, List.mem_cons] at hx
        rcases hx with rfl | hx
        · have hq := hn q (List.mem_cons_self _ _)
          simp only [hq, Bool.not_true]
        · refine ih (q.Username :: names) ?_ x hx
          intro r hr
          have hr' := hn r (List.mem_cons_of_mem _ hr)
          simp only [List.contains_cons, hr', Bool.or_true]
    refine hall _ _ ?_ resp hresp
    intro r hr
    rw [← taken_eq_contains]
    exact htaken r ((List.take_subset k S) hr)
  · intro S' row hrow
    obtain ⟨created, hc, hfree, hnodup⟩ := processRequests_table cfg env L w
    obtain ⟨created', hc', hfree', -⟩ := processRequests_table cfg env' S' w₂
    rw [hc, List.drop_left] at hrow
    rw [hc', hstore, hc, List.filter_append, List.filter_append]
    have h1 : w.table.filter (fun x => x.Username == row.Username) = [] := by
      rw [List.filter_eq_nil_iff]
      intro y hy hyn
      have : taken w.table row.Username = true := List.any_eq_true.mpr ⟨y, hy, hyn⟩
      rw [hfree row hrow] at this
      exact Bool.false_ne_true this
    have h2 : created'.filter (fun x => x.Username == row.Username) = [] := by
      rw [List.filter_eq_nil_iff]
      intro y hy hyn
      have hy' := hfree' y hy
      rw [hstore, hc, taken_append] at hy'
      have hrowt : taken created y.Username = true :=
        List.any_eq_true.mpr ⟨row, hrow, by
          show (row.Username == y.Username) = true
          rw [BEq.comm]; exact hyn⟩
      simp [hrowt] at hy'
    rw [h1, h2, List.nil_append, List.append_nil]
    exact filter_of_nodup created row hrow hnodup

/-- Witness of C12: after "bob", "alice", "bob" have been handled on an empty store, handling the
last two again, in a world where the random source would give new ids, leaves the two users as
they are. -/
theorem replay_creates_no_user_witness :
    (processRequests defaultConfig quietEnv
        [⟨"r1", "bob", 0, 0⟩, ⟨"r2", "alice", 0, 1⟩, ⟨"r3", "bob", 0, 2⟩]
        ⟨[], [], 0⟩).returned = true ∧
    ([⟨"r2", "alice", 0, 1⟩, ⟨"r3", "bob", 0, 2⟩] : List SignupRequest)
      <:+ [⟨"r1", "bob", 0, 0⟩, ⟨"r2", "alice", 0, 1⟩, ⟨"r3", "bob", 0, 2⟩] ∧
    (processRequests defaultConfig quietEnv
        [⟨"r1", "bob", 0, 0⟩, ⟨"r2", "alice", 0, 1⟩, ⟨"r3", "bob", 0, 2⟩]
        ⟨[], [], 0⟩).state.table = [⟨"id0", "bob"⟩, ⟨"id1", "alice"⟩] ∧
    (processRequests defaultConfig quietEnv [⟨"r2", "alice", 0, 1⟩, ⟨"r3", "bob", 0, 2⟩]
        ⟨[⟨"id0", "bob"⟩, ⟨"id1", "alice"⟩], [], 5⟩).state.table
      = [⟨"id0", "bob"⟩, ⟨"id1", "alice"⟩] :=
  ⟨by decide, ⟨[⟨"r1", "bob", 0, 0⟩], rfl⟩, by decide,
    (replay_creates_no_user defaultConfig quietEnv quietEnv
      [⟨"r1", "bob", 0, 0⟩, ⟨"r2", "alice", 0, 1⟩, ⟨"r3", "bob", 0, 2⟩]
      [⟨"r2", "alice", 0, 1⟩, ⟨"r3", "bob", 0, 2⟩] ⟨[], [], 0⟩
      ⟨[⟨"id0", "bob"⟩, ⟨"id1", "alice"⟩], [], 5⟩ (by decide) ⟨[⟨"r1", "bob", 0, 0⟩], rfl⟩
      (by decide)).1⟩

/-! ## The loop of `signup-ctl` -/

theorem requestsIn_append (a b : List ProducerMessage) :
    requestsIn (a ++ b) = requestsIn a ++ requestsIn b := by
  simp [requestsIn, List.filterMap_append]

theorem requestsIn_requestMessage (cfg : Config) (r : SignupRequest) :
    requestsIn [requestMessage cfg r]
      = [{ ID := r.ID, Username := r.Username, Partition := 0, SequenceID := 0 }] := by
  simp [requestsIn, requestMessage, unmarshal_marshal_request, Except.toOption]

theorem ctlLoop_closed (cfg : Config) (env : Nat → CtlEnv) (n : Nat)
    (log : List ProducerMessage) (t : Nat) :
    ctlLoop cfg env n ⟨[], log, t⟩ = .ret () ⟨[], log, t + n⟩ := by
  induction n generalizing t with
  | zero => rfl
  | succ n ih =>
    simp only [ctlLoop, ctlTurn, receive, if_true]
    rw [ih]
    simp [Nat.add_comm, Nat.add_left_comm]

/-- Shape of a run of the loop that meets no fault: after at least as many turns as there are
lines the channel is drained and the log has grown by one message per non-blank line. -/
theorem ctlLoop_lines (cfg : Config) (env : Nat → CtlEnv)
    (hid : ∀ i, ∃ id, (env i).newID = .ok id) (hsend : ∀ i, (env i).sendFault = none)
    (lines : List String) (log : List ProducerMessage) (t n : Nat) (hn : lines.length ≤ n) :
    ∃ added, ctlLoop cfg env n ⟨lines, log, t⟩ = .ret () ⟨[], log ++ added, t + n⟩ ∧
      (requestsIn added).map (fun r => r.Username) = lines.filter (fun l => l ≠ "") ∧
      added.map (fun m => m.Key) = lines.filter (fun l => l ≠ "") ∧
      added.length = (lines.filter (fun l => l ≠ "")).length ∧
      (∀ m ∈ added, m.Topic = cfg.requestTopic) := by
  induction lines generalizing log t n with
  | nil => exact ⟨[], by simpa using ctlLoop_closed cfg env n log t, rfl, rfl, rfl, by simp⟩
  | cons line rest ih =>
    obtain ⟨k, rfl⟩ : ∃ k, n = k + 1 := ⟨n - 1, by simp at hn; omega⟩
    have hk : rest.length ≤ k := by simpa using hn
    by_cases hb : line = ""
    · obtain ⟨added, hrun, h1, h2, h3, h4⟩ := ih log (t + 1) k hk
      refine ⟨added, ?_, ?_, ?_, ?_, h4⟩
      · simp only [ctlLoop, ctlTurn, receive, hb, if_true]
        rw [hrun]
        simp [Nat.add_comm, Nat.add_left_comm]
      · simpa [List.filter_cons, hb] using h1
      · simpa [List.filter_cons, hb] using h2
      · simpa [List.filter_cons, hb] using h3
    · obtain ⟨id, hidt⟩ := hid t
      obtain ⟨added, hrun, h1, h2, h3, h4⟩ :=
        ih (log ++ [requestMessage cfg ⟨id, line, 0, 0⟩]) (t + 1) k hk
      refine ⟨requestMessage cfg ⟨id, line, 0, 0⟩ :: added, ?_, ?_, ?_, ?_, ?_⟩
      · simp only [ctlLoop, ctlTurn, receive, hb, if_false, hidt, hsend t, CreateRequest,
          SendMessage]
        rw [hrun]
        simp [Nat.add_comm, Nat.add_left_comm]
      · have := requestsIn_append [requestMessage cfg ⟨id, line, 0, 0⟩] added
        simp only [List.singleton_append] at this
        rw [this, requestsIn_requestMessage]
        simp [List.filter_cons, hb, h1]
      · simp [List.filter_cons, hb, h2, requestMessage]
      · simp [List.filter_cons, hb, h3]
      · intro m hm
        rcases List.mem_cons.mp hm with rfl | hm
        · rfl
        · exact h4 m hm

theorem ctlLoop_add (cfg : Config) (env : Nat → CtlEnv) (m k : Nat) (s : CtlState) :
    ctlLoop cfg env (m + k) s
      = match ctlLoop cfg env m s with
        | .ret _ s' => ctlLoop cfg env k s'
        | .fatal msg s' => .fatal msg s' := by
  induction m generalizing s with
  | zero => simp [ctlLoop]
  | succ m ih =>
    rw [Nat.add_right_comm]
    simp only [ctlLoop]
    cases ctlTurn cfg env s with
    | fatal msg s' => rfl
    | ret a s' => exact ih s'

/-- C11. For every list of lines read by `signup-ctl`, when identifier generation and the append
succeed and the context is not cancelled, the loop gets through the input in as many turns as
there are lines, and the requests it has created are then exactly one per non-blank line, in
input order, each with `Username` (and partition key) equal to that line; a blank line produces
no request, and the turns after the end of the input produce none. -/
theorem one_request_per_line (cfg : Config) (env : Nat → CtlEnv) (lines : List String)
    (log : List ProducerMessage) (n : Nat)
    (hid : ∀ i, ∃ id, (env i).newID = .ok id) (hsend : ∀ i, (env i).sendFault = none)
    (hn : lines.length ≤ n) :
    ∃ s, ctlLoop cfg env n ⟨userInput lines, log, 0⟩ = .ret () s ∧
      s.pending = [] ∧
      (requestsIn (s.requestLog.drop log.length)).map (fun r => r.Username)
        = lines.filter (fun l => l ≠ "") ∧
      (s.requestLog.drop log.length).map (fun m => m.Key) = lines.filter (fun l => l ≠ "") ∧
      (s.requestLog.drop log.length).length = (lines.filter (fun l => l ≠ "")).length ∧
      (∀ m ∈ s.requestLog.drop log.length, m.Topic = cfg.requestTopic) ∧
      s.requestLog
        = (ctlLoop cfg env lines.length ⟨userInput lines, log, 0⟩).state.requestLog := by
  obtain ⟨added, hrun, h1, h2, h3, h4⟩ :=
    ctlLoop_lines cfg env hid hsend lines log 0 lines.length (le_refl _)
  obtain ⟨k, rfl⟩ : ∃ k, n = lines.length + k := ⟨n - lines.length, by omega⟩
  have hfull : ctlLoop cfg env (lines.length + k) ⟨userInput lines, log, 0⟩
      = .ret () ⟨[], log ++ added, 0 + lines.length + k⟩ := by
    rw [ctlLoop_add]
    simp only [userInput, hrun]
    exact ctlLoop_closed cfg env k (log ++ added) (0 + lines.length)
  refine ⟨_, hfull, rfl, ?_, ?_, ?_, ?_, ?_⟩
  · simpa using h1
  · simpa using h2
  · simpa using h3
  · simpa using h4
  · simp only [userInput, hrun, Outcome.state]

/-- Witness of C11: of the lines "bob", "", "alice" the first and the third get a request, in
this order, and nothing is added in the turns after the input has ended. -/
theorem one_request_per_line_witness :
    (∀ i, ∃ id, (quietCtlEnv i).newID = .ok id) ∧
    (∀ i, (quietCtlEnv i).sendFault = none) ∧
    (["bob", "", "alice"] : List String).length ≤ 5 ∧
    ∃ s, ctlLoop defaultConfig quietCtlEnv 5 ⟨userInput ["bob", "", "alice"], [], 0⟩
        = .ret () s ∧
      (requestsIn s.requestLog).map (fun r => r.Username) = ["bob", "alice"] :=
  ⟨fun _ => ⟨_, rfl⟩, fun _ => rfl, by decide,
    (one_request_per_line defaultConfig quietCtlEnv ["bob", "", "alice"] [] 5
      (fun _ => ⟨_, rfl⟩) (fun _ => rfl) (by decide)).imp
      (fun _ h => ⟨h.1, by simpa using h.2.2.1⟩)⟩

/-! ## The fan-in of the response partitions -/

theorem forwarded_append (s : Merge) (i k : Nat) (extra : List ConsumerMessage) :
    forwarded { s with merged := s.merged ++ extra.map (fun m => (i, m)) } k
      = forwarded s k ++ (if i = k then extra else []) := by
  unfold forwarded
  simp only [List.filter_append, List.map_append]
  congr 1
  by_cases h : i = k
  · subst h
    simp [List.filter_map, Function.comp_def]
  · simp [h, List.filter_map, Function.comp_def]

theorem getElem?_set_lane (lanes : List Lane) (i k : Nat) (lane lane' : Lane)
    (hget : lanes[i]? = some lane) :
    (lanes.set i lane')[k]? = if i = k then some lane' else lanes[k]? := by
  have hi : i < lanes.length := by
    by_contra h
    rw [List.getElem?_eq_none (by omega)] at hget
    exact Option.noConfusion hget
  rw [List.getElem?_set]
  by_cases h : i = k
  · subst h; simp [hi]
  · simp [h]

theorem inv_update (s : Merge) (i : Nat) (lane lane' : Lane) (extra : List ConsumerMessage)
    (hget : s.lanes[i]? = some lane) (hinv : MergeInv s)
    (h1 : forwarded s i ++ extra ++ lane'.held.toList = lane'.delivered)
    (h2 : lane'.done = true → lane'.held = none ∧ lane'.channelClosed = true)
    (h3 : s.closed = true → lane'.done = true) :
    MergeInv (Merge.mk (s.lanes.set i lane') (s.merged ++ extra.map (fun m => (i, m)))
      s.closed) := by
  obtain ⟨hl, hm⟩ := hinv
  have hi : i < s.lanes.length := by
    by_contra h
    rw [List.getElem?_eq_none (by omega)] at hget
    exact Option.noConfusion hget
  constructor
  · intro k l hk
    have hfw : forwarded (Merge.mk (s.lanes.set i lane')
        (s.merged ++ extra.map (fun m => (i, m))) s.closed) k
        = forwarded s k ++ (if i = k then extra else []) :=
      forwarded_append (Merge.mk (s.lanes.set i lane') s.merged s.closed) i k extra
    simp only at hk
    rw [getElem?_set_lane s.lanes i k lane lane' hget] at hk
    rw [hfw]
    by_cases h : i = k
    · subst h
      simp only [if_true, Option.some.injEq] at hk ⊢
      subst hk
      exact ⟨h1, h2, h3⟩
    · simp only [h, if_false, List.append_nil] at hk ⊢
      exact hl k l hk
  · intro p hp
    simp only [List.length_set]
    rcases List.mem_append.mp hp with hp | hp
    · exact hm p hp
    · obtain ⟨m, -, rfl⟩ := List.mem_map.mp hp
      exact hi

theorem init_inv (n : Nat) : MergeInv (mergeMessages n) := by
  constructor
  · intro i lane hi
    simp only [mergeMessages] at hi
    have : lane = { delivered := [], channelClosed := false, held := none, done := false } := by
      rw [List.getElem?_replicate] at hi
      split_ifs at hi
      exact (Option.some.inj hi).symm
    subst this
    simp [forwarded, mergeMessages]
  · intro p hp
    simp [mergeMessages] at hp

theorem step_inv (a : Action) (s s' : Merge) (hinv : MergeInv s) (h : step a s = some s') :
    MergeInv s' := by
  cases a with
  | receive i m =>
    simp only [step] at h
    cases hget : s.lanes[i]? with
    | none => simp [hget] at h
    | some lane =>
      simp only [hget] at h
      split_ifs at h with hg
      obtain ⟨hdone, hheld⟩ := hg
      obtain ⟨h1, -, h3⟩ := hinv.1 i lane hget
      have := inv_update s i lane
        { lane with delivered := lane.delivered ++ [m], held := some m } [] hget hinv
        (by simp only [List.append_nil, Option.toList]; rw [← h1, hheld]; simp)
        (by intro hd; simp [hdone] at hd)
        (by intro hc; have := h3 hc; simp [hdone] at this)
      simp only [List.map_nil, List.append_nil] at this
      rw [← Option.some.inj h]
      exact this
  | closePartition i =>
    simp only [step] at h
    cases hget : s.lanes[i]? with
    | none => simp [hget] at h
    | some lane =>
      simp only [hget] at h
      split_ifs at h with hg
      obtain ⟨h1, h2, h3⟩ := hinv.1 i lane hget
      have := inv_update s i lane { lane with channelClosed := true } [] hget hinv
        (by simpa using h1) (by intro hd; exact ⟨(h2 hd).1, rfl⟩) h3
      simp only [List.map_nil, List.append_nil] at this
      rw [← Option.some.inj h]
      exact this
  | forward i =>
    simp only [step] at h
    cases hget : s.lanes[i]? with
    | none => simp [hget] at h
    | some lane =>
      simp only [hget] at h
      cases hheld : lane.held with
      | none => simp [hheld] at h
      | some m =>
        simp only [hheld] at h
        obtain ⟨h1, h2, h3⟩ := hinv.1 i lane hget
        have := inv_update s i lane { lane with held := none } [m] hget hinv
          (by simpa [hheld] using h1) (by intro hd; exact ⟨rfl, (h2 hd).2⟩) h3
        rw [← Option.some.inj h]
        exact this
  | finish i =>
    simp only [step] at h
    cases hget : s.lanes[i]? with
    | none => simp [hget] at h
    | some lane =>
      simp only [hget] at h
      split_ifs at h with hg
      obtain ⟨-, hheld, hclosed⟩ := hg
      obtain ⟨h1, -, -⟩ := hinv.1 i lane hget
      have := inv_update s i lane { lane with done := true } [] hget hinv
        (by simpa using h1) (fun _ => ⟨hheld, hclosed⟩) (fun _ => rfl)
      simp only [List.map_nil, List.append_nil] at this
      rw [← Option.some.inj h]
      exact this
  | closeMerged =>
    simp only [step] at h
    split_ifs at h with hg
    obtain ⟨-, hall⟩ := hg
    rw [← Option.some.inj h]
    refine ⟨fun i lane hget => ?_, hinv.2⟩
    obtain ⟨h1, h2, -⟩ := hinv.1 i lane hget
    refine ⟨h1, h2, fun _ => ?_⟩
    exact List.all_eq_true.mp hall lane (List.getElem?_mem hget)

theorem run_inv (acts : List Action) (s s' : Merge) (hinv : MergeInv s)
    (h : run acts s = some s') : MergeInv s' := by
  induction acts generalizing s with
  | nil =>
    simp only [run] at h
    rw [← Option.some.inj h]
    exact hinv
  | cons a rest ih =>
    simp only [run] at h
    cases hs : step a s with
    | none => simp [hs] at h
    | some s₁ =>
      simp only [hs] at h
      exact ih s₁ (step_inv a s s₁ hinv hs) h

theorem step_lanes_length (a : Action) (s s' : Merge) (h : step a s = some s') :
    s'.lanes.length = s.lanes.length := by
  cases a with
  | receive i m =>
    simp only [step] at h
    cases hget : s.lanes[i]? with
    | none => simp [hget] at h
    | some lane =>
      simp only [hget] at h
      split_ifs at h
      rw [← Option.some.inj h]
      simp [setLane]
  | closePartition i =>
    simp only [step] at h
    cases hget : s.lanes[i]? with
    | none => simp [hget] at h
    | some lane =>
      simp only [hget] at h
      split_ifs at h
      rw [← Option.some.inj h]
      simp [setLane]
  | forward i =>
    simp only [step] at h
    cases hget : s.lanes[i]? with
    | none => simp [hget] at h
    | some lane =>
      simp only [hget] at h
      cases hheld : lane.held with
      | none => simp [hheld] at h
      | some m =>
        simp only [hheld] at h
        rw [← Option.some.inj h]
        simp [setLane]
  | finish i =>
    simp only [step] at h
    cases hget : s.lanes[i]? with
    | none => simp [hget] at h
    | some lane =>
      simp only [hget] at h
      split_ifs at h
      rw [← Option.some.inj h]
      simp [setLane]
  | closeMerged =>
    simp only [step] at h
    split_ifs at h
    rw [← Option.some.inj h]

theorem run_lanes_length (acts : List Action) (s s' : Merge) (h : run acts s = some s') :
    s'.lanes.length = s.lanes.length := by
  induction acts generalizing s with
  | nil =>
    simp only [run] at h
    rw [← Option.some.inj h]
  | cons a rest ih =>
    simp only [run] at h
    cases hs : step a s with
    | none => simp [hs] at h
    | some s₁ =>
      simp only [hs] at h
      rw [ih s₁ h, step_lanes_length a s s₁ hs]

/-- A goroutine that is sending can complete its send whatever the other lanes do, and then all
its delivered messages are in the merged stream. -/
theorem forward_enabled (s : Merge) (j : Nat) (lane : Lane) (m : ConsumerMessage)
    (hinv : MergeInv s) (hget : s.lanes[j]? = some lane) (hheld : lane.held = some m) :
    ∃ s', step (.forward j) s = some s' ∧ forwarded s' j = lane.delivered ∧
      s'.lanes[j]? = some { lane with held := none } ∧
      ∀ k, k ≠ j → s'.lanes[k]? = s.lanes[k]? := by
  refine ⟨Merge.mk (s.lanes.set j { lane with held := none })
    (s.merged ++ [m].map (fun x => (j, x))) s.closed, ?_, ?_, ?_, ?_⟩
  · simp [step, hget, hheld, setLane]
  · have := forwarded_append (Merge.mk (s.lanes.set j { lane with held := none }) s.merged
      s.closed) j j [m]
    have h1 := (hinv.1 j lane hget).1
    rw [hheld] at h1
    simp only [if_true] at this
    rw [this]
    exact h1
  · simp only
    rw [getElem?_set_lane s.lanes j j lane _ hget]
    simp
  · intro k hk
    simp only
    rw [getElem?_set_lane s.lanes j k lane _ hget]
    simp [Ne.symm hk]

/-- A goroutine that waits in its loop can take the next message of its partition and send it
on, whatever the other lanes do. -/
theorem receive_forward_enabled (s : Merge) (j : Nat) (lane : Lane) (m : ConsumerMessage)
    (hinv : MergeInv s) (hget : s.lanes[j]? = some lane) (hdone : lane.done = false)
    (hheld : lane.held = none) :
    ∃ s', run [.receive j m, .forward j] s = some s' ∧
      forwarded s' j = lane.delivered ++ [m] ∧
      ∀ k, k ≠ j → s'.lanes[k]? = s.lanes[k]? := by
  have hstep : step (.receive j m) s
      = some (setLane s j { lane with delivered := lane.delivered ++ [m], held := some m }) := by
    simp [step, hget, hdone, hheld]
  have hinv₁ := step_inv _ _ _ hinv hstep
  have hget₁ : (setLane s j
      { lane with delivered := lane.delivered ++ [m], held := some m }).lanes[j]?
      = some { lane with delivered := lane.delivered ++ [m], held := some m } := by
    simp only [setLane]
    rw [getElem?_set_lane s.lanes j j lane _ hget]
    simp
  obtain ⟨s', hs', hf, -, hother⟩ := forward_enabled _ j _ m hinv₁ hget₁ rfl
  refine ⟨s', by simp [run, hstep, hs'], hf, ?_⟩
  intro k hk
  rw [hother k hk]
  simp only [setLane]
  rw [getElem?_set_lane s.lanes j k lane _ hget]
  simp [Ne.symm hk]

/-- C16. Response fan-in.  In every state `mergeMessages` reaches on any number of partition
consumers under any schedule: the merged stream holds, of each lane, the messages its partition
has delivered, each once and in log order, short of none but the one message the goroutine is
sending, and every message of the stream comes from a lane; once the merged stream is closed,
every partition's channel is closed, every goroutine is done, and every delivered message is in
the stream; and a goroutine can always complete its send, or take the next message of its
partition and send it on, without a step of any other lane, however silent the others are. -/
theorem merge_forwards_each_once (n : Nat) (acts : List Action) (s : Merge)
    (hrun : run acts (mergeMessages n) = some s) :
    s.lanes.length = n ∧
    (∀ i lane, s.lanes[i]? = some lane →
      forwarded s i ++ lane.held.toList = lane.delivered ∧
      forwarded s i <+: lane.delivered) ∧
    (∀ p ∈ s.merged, p.1 < n) ∧
    (s.closed = true → ∀ i lane, s.lanes[i]? = some lane →
      lane.channelClosed = true ∧ lane.done = true ∧ lane.held = none ∧
      forwarded s i = lane.delivered) ∧
    (∀ j lane, s.lanes[j]? = some lane → lane.done = false →
      (∀ m, lane.held = some m →
        ∃ s', step (.forward j) s = some s' ∧ forwarded s' j = lane.delivered ∧
          ∀ k, k ≠ j → s'.lanes[k]? = s.lanes[k]?) ∧
      (lane.held = none → ∀ m,
        ∃ s', run [.receive j m, .forward j] s = some s' ∧
          forwarded s' j = lane.delivered ++ [m] ∧
          ∀ k, k ≠ j → s'.lanes[k]? = s.lanes[k]?)) := by
  have hinv := run_inv acts _ s (init_inv n) hrun
  have hlen : s.lanes.length = n := by
    rw [run_lanes_length acts _ s hrun]
    simp [mergeMessages]
  refine ⟨hlen, ?_, ?_, ?_, ?_⟩
  · intro i lane hget
    obtain ⟨h1, -, -⟩ := hinv.1 i lane hget
    exact ⟨h1, ⟨lane.held.toList, h1⟩⟩
  · intro p hp
    rw [← hlen]
    exact hinv.2 p hp
  · intro hclosed i lane hget
    obtain ⟨h1, h2, h3⟩ := hinv.1 i lane hget
    have hdone := h3 hclosed
    obtain ⟨hheld, hch⟩ := h2 hdone
    refine ⟨hch, hdone, hheld, ?_⟩
    rw [hheld] at h1
    simpa using h1
  · intro j lane hget hdone
    constructor
    · intro m hheld
      obtain ⟨s', h1, h2, -, h3⟩ := forward_enabled s j lane m hinv hget hheld
      exact ⟨s', h1, h2, h3⟩
    · intro hheld m
      exact receive_forward_enabled s j lane m hinv hget hdone hheld

/-- Witness of C16: two partitions, the second silent until the first has got its message
through; after both channels are closed and both goroutines are done the merged stream is closed
and holds the message of each lane once. -/
theorem merge_forwards_each_once_witness :
    run [.receive 0 ⟨"account.signup_response", 0, 4, ascii "a"⟩, .forward 0,
        .receive 1 ⟨"account.signup_response", 1, 9, ascii "b"⟩, .closePartition 0, .forward 1,
        .closePartition 1, .finish 1, .finish 0, .closeMerged] (mergeMessages 2)
      = some ⟨[⟨[⟨"account.signup_response", 0, 4, ascii "a"⟩], true, none, true⟩,
              ⟨[⟨"account.signup_response", 1, 9, ascii "b"⟩], true, none, true⟩],
          [(0, ⟨"account.signup_response", 0, 4, ascii "a"⟩),
            (1, ⟨"account.signup_response", 1, 9, ascii "b"⟩)], true⟩ ∧
    (∀ i lane, ([⟨[⟨"account.signup_response", 0, 4, ascii "a"⟩], true, none, true⟩,
              ⟨[⟨"account.signup_response", 1, 9, ascii "b"⟩], true, none, true⟩] : List Lane)[i]?
        = some lane →
      lane.channelClosed = true ∧ lane.done = true ∧ lane.held = none ∧
      forwarded ⟨[⟨[⟨"account.signup_response", 0, 4, ascii "a"⟩], true, none, true⟩,
              ⟨[⟨"account.signup_response", 1, 9, ascii "b"⟩], true, none, true⟩],
          [(0, ⟨"account.signup_response", 0, 4, ascii "a"⟩),
            (1, ⟨"account.signup_response", 1, 9, ascii "b"⟩)], true⟩ i = lane.delivered) :=
  ⟨by decide,
    (merge_forwards_each_once 2
      [.receive 0 ⟨"account.signup_response", 0, 4, ascii "a"⟩, .forward 0,
        .receive 1 ⟨"account.signup_response", 1, 9, ascii "b"⟩, .closePartition 0, .forward 1,
        .closePartition 1, .finish 1, .finish 0, .closeMerged]
      ⟨[⟨[⟨"account.signup_response", 0, 4, ascii "a"⟩], true, none, true⟩,
              ⟨[⟨"account.signup_response", 1, 9, ascii "b"⟩], true, none, true⟩],
          [(0, ⟨"account.signup_response", 0, 4, ascii "a"⟩),
            (1, ⟨"account.signup_response", 1, 9, ascii "b"⟩)], true⟩ (by decide)).2.2.2.1 rfl⟩

end DistributedSignup
